import Mathlib

/-!
Shallow embedding of the import-orchestration core of the repository
(shared/takeout_utils.py, shared/immich_go_runner.py, shared/import_processor.py).

Conventions of the embedding:
* Python dictionaries keyed by insertion order become association lists.
* Machine side effects (writing a file to disk, launching a process) become
  explicit oracle parameters describing the outcome of the effect.
* The log line parser `parse_log_entry` is not part of the source tree (only
  its callers are); the tailing loop is therefore parameterised over the
  already-parsed stream of optional events, which is all its callers observe.
* Timing fields (start_time, end_time, duration_seconds) and the sorted
  album/tag name lists of the summary are not modelled; no claim concerns them.
-/

namespace ImmichTakeout

/-! ## String helpers (takeout_utils.py top of file) -/

/-- Boolean suffix test on strings, used for the `.endswith` checks. -/
def strEndsWith (s suf : String) : Bool :=
  decide (suf.toList <:+ s.toList)

/-- Boolean contiguous-sublist test on character lists. -/
def listHasSub : List Char → List Char → Bool
  | pat, [] => pat.isEmpty
  | pat, c :: rest => pat.isPrefixOf (c :: rest) || listHasSub pat rest

/-- Boolean substring test, used for the `'Google Photos' in filepath` checks. -/
def strContains (s sub : String) : Bool :=
  listHasSub sub.toList s.toList

/-- Basename of a slash-separated path, as `Path(p).name` computes it for the
slash-free-tail paths that occur as archive members: the characters after the
last slash. -/
def baseName (p : String) : String :=
  String.mk ((p.toList.reverse.takeWhile (fun c => c ≠ '/')).reverse)

/-- Lower-cased extension of a filename including the dot, as `Path(f).suffix.lower()`. -/
def extOf (f : String) : String :=
  let cs := f.toList
  if '.' ∈ cs then
    String.mk (('.' :: (cs.reverse.takeWhile (fun c => c ≠ '.')).reverse.map Char.toLower))
  else ""

/-- MEDIA_EXTENSIONS from takeout_utils.py. -/
def mediaExtensions : List String :=
  [".jpg", ".jpeg", ".png", ".gif", ".bmp", ".tiff", ".tif", ".webp",
   ".heic", ".heif", ".raw", ".cr2", ".nef", ".arw", ".dng",
   ".mp4", ".mov", ".avi", ".mkv", ".wmv", ".flv", ".webm", ".m4v",
   ".3gp", ".3g2", ".mpeg", ".mpg", ".mts", ".m2ts"]

/-- is_media_file from takeout_utils.py. -/
def isMediaFile (filename : String) : Bool :=
  mediaExtensions.contains (extOf filename)

/-- is_google_photos_path from takeout_utils.py. -/
def isGooglePhotosPath (filepath : String) : Bool :=
  strContains filepath "Google Photos" || strContains filepath "Google Foto\x27s"

/-! ## Log events and the results accumulator (immich_go_runner.py) -/

/-- Per-file outcome vocabulary reported by the log of the external tool. -/
inductive FileStatus where
  | uploaded
  | server_duplicate
  | local_duplicate
  | server_better
  | upgraded
  | error
deriving DecidableEq, Repr

/-- String form of a status as stored in manifests. -/
def FileStatus.toStr : FileStatus → String
  | .uploaded => "uploaded"
  | .server_duplicate => "server_duplicate"
  | .local_duplicate => "local_duplicate"
  | .server_better => "server_better"
  | .upgraded => "upgraded"
  | .error => "error"

/-- Normalised events produced by the (externally defined) log entry parser,
as consumed by the event_type dispatch of `_tail_log_file`. -/
inductive Event where
  | file_result (filename : String) (status : FileStatus) (reason : Option String)
  | album (filename : String) (name : String)
  | tag (filename : String) (name : String)
  | album_created (name : String)
  | discovery (isImage : Bool)
  | stack
  | genericError (message : String)
deriving DecidableEq, Repr

/-- Per-file record inside the results accumulator
(one value of the files map of the results accumulator). -/
structure FileRec where
  status : Option FileStatus
  reason : Option String
  albums : List String
  tags : List String
deriving DecidableEq, Repr

def defaultFileRec : FileRec :=
  { status := none, reason := none, albums := [], tags := [] }

/-- Counter block of the results accumulator (`_create_empty_results`). -/
structure Summary where
  uploaded : Nat
  server_duplicate : Nat
  local_duplicate : Nat
  server_better : Nat
  upgraded : Nat
  errors : Nat
  albums_created : Nat
  albums_updated : Nat
  tagged : Nat
  stacked : Nat
  discovered_images : Nat
  discovered_videos : Nat
deriving DecidableEq, Repr

def emptySummary : Summary :=
  { uploaded := 0, server_duplicate := 0, local_duplicate := 0, server_better := 0,
    upgraded := 0, errors := 0, albums_created := 0, albums_updated := 0,
    tagged := 0, stacked := 0, discovered_images := 0, discovered_videos := 0 }

/-- Results accumulator: summary counters plus the per-filename map
(association list in insertion order, as a Python dict iterates). -/
structure Results where
  summary : Summary
  files : List (String × FileRec)
deriving DecidableEq, Repr

def emptyResults : Results :=
  { summary := emptySummary, files := [] }

/-- Insert-or-update of the per-file map: `if filename not in files: files[filename] = default`
followed by a field mutation. -/
def updateFileRec : List (String × FileRec) → String → (FileRec → FileRec) → List (String × FileRec)
  | [], n, g => [(n, g defaultFileRec)]
  | (k, v) :: rest, n, g =>
    if k = n then (k, g v) :: rest else (k, v) :: updateFileRec rest n g

/-- Update only when the key is already present
(guarded by a membership test on the files map). -/
def modifyFileRec : List (String × FileRec) → String → (FileRec → FileRec) → List (String × FileRec)
  | [], _, _ => []
  | (k, v) :: rest, n, g =>
    if k = n then (k, g v) :: rest else (k, v) :: modifyFileRec rest n g

/-- Effect of one event on the results accumulator: the event_type dispatch
inside `_tail_log_file` (summary counter bumps and files-map updates). -/
def accumulate (r : Results) (e : Event) : Results :=
  match e with
  | .file_result filename status reason =>
    let files := updateFileRec r.files filename
      (fun fr => { fr with status := some status, reason := reason })
    let s := r.summary
    let s :=
      match status with
      | .uploaded => { s with uploaded := s.uploaded + 1 }
      | .server_duplicate => { s with server_duplicate := s.server_duplicate + 1 }
      | .local_duplicate => { s with local_duplicate := s.local_duplicate + 1 }
      | .server_better => { s with server_better := s.server_better + 1 }
      | .upgraded => { s with upgraded := s.upgraded + 1 }
      | .error => { s with errors := s.errors + 1 }
    { summary := s, files := files }
  | .album filename name =>
    { summary := { r.summary with albums_updated := r.summary.albums_updated + 1 },
      files := modifyFileRec r.files filename
        (fun fr => if fr.albums.contains name then fr
                   else { fr with albums := fr.albums ++ [name] }) }
  | .tag filename name =>
    { summary := { r.summary with tagged := r.summary.tagged + 1 },
      files := modifyFileRec r.files filename
        (fun fr => if fr.tags.contains name then fr
                   else { fr with tags := fr.tags ++ [name] }) }
  | .album_created _ =>
    { r with summary := { r.summary with albums_created := r.summary.albums_created + 1 } }
  | .discovery isImage =>
    if isImage then
      { r with summary := { r.summary with discovered_images := r.summary.discovered_images + 1 } }
    else
      { r with summary := { r.summary with discovered_videos := r.summary.discovered_videos + 1 } }
  | .stack =>
    { r with summary := { r.summary with stacked := r.summary.stacked + 1 } }
  | .genericError _ => r

/-- The tailing loop `_tail_log_file`: reads the log line by line; a line is
either undecodable/uninteresting (`none`) or yields a parsed event.  For every
event the accumulator is updated first and then the caller-supplied callback
is invoked; an exception raised by the callback is caught (`except Exception`)
and the loop continues with the next line.  The own state of the callback is the
job metadata it mutates; it is threaded as `σ`.  Returns the final accumulator,
the final callback state, and the list of events handed to the callback. -/
def tailLogFile {σ : Type} (cb : σ → Event → Except String σ) :
    List (Option Event) → Results → σ → Results × σ × List Event
  | [], r, st => (r, st, [])
  | none :: rest, r, st => tailLogFile cb rest r st
  | some e :: rest, r, st =>
    let r' := accumulate r e
    let st' :=
      match cb st e with
      | .ok s => s
      | .error _ => st
    let out := tailLogFile cb rest r' st'
    (out.1, out.2.1, e :: out.2.2)

/-! ## The retrying runner (`ImmichGoRunner._run_with_retry`) -/

/-- Outcome of one launch of the external tool: either `subprocess.run` raised
(missing binary, permission error) or the child ran to completion with an exit
code, having appended the given lines to the log file. -/
inductive LaunchResult where
  | raised (msg : String)
  | ran (exitCode : Int) (lines : List (Option Event))

/-- The attempt loop of `_run_with_retry`, from attempt `i` with `remaining`
further attempts allowed after this one.  The third argument is the log file
content at the start of the attempt: at a retry the log file has just been
deleted, so recursive calls pass `[]`.  Each attempt creates a fresh empty
accumulator and tails the whole log file; exit code 0 returns immediately; a
launch exception propagates (carrying the attempt index at which it occurred);
after the last allowed attempt the last exit code and results are returned
together with the number of attempts that ran. -/
def runFrom {σ : Type} (attempts : Nat → LaunchResult) (cb : σ → Event → Except String σ) :
    Nat → Nat → List (Option Event) → σ → Except (String × Nat) (Int × Results × σ × Nat)
  | i, remaining, log, st =>
    match attempts i with
    | .raised msg => .error (msg, i)
    | .ran exitCode lines =>
      let out := tailLogFile cb (log ++ lines) emptyResults st
      if exitCode = 0 then .ok (exitCode, out.1, out.2.1, i)
      else
        match remaining with
        | 0 => .ok (exitCode, out.1, out.2.1, i)
        | r + 1 => runFrom attempts cb (i + 1) r [] out.2.1

/-- `_run_with_retry`: attempts are numbered 1..max_retries; with
`max_retries = 0` the loop body never runs and `(-1, empty results)` is
returned. -/
def runWithRetry {σ : Type} (attempts : Nat → LaunchResult) (cb : σ → Event → Except String σ)
    (maxRetries : Nat) (st : σ) : Except (String × Nat) (Int × Results × σ × Nat) :=
  match maxRetries with
  | 0 => .ok (-1, emptyResults, st, 0)
  | m + 1 => runFrom attempts cb 1 m [] st

/-- View of the outcome of the runner as `upload_google_photos` hands it to the
orchestrator: the pair on success, the propagating exception otherwise. -/
def adaptRun {σ : Type} : Except (String × Nat) (Int × Results × σ × Nat) →
    Except String (Int × Results)
  | .error (msg, _) => .error msg
  | .ok (code, res, _, _) => .ok (code, res)

/-- has_errors from ImmichGoRunner. -/
def hasErrors (results : Results) : Bool :=
  results.summary.errors > 0

/-- is_success from ImmichGoRunner: exit code 0 AND no errors in results. -/
def isSuccess (exitCode : Int) (results : Results) : Bool :=
  exitCode = 0 && !hasErrors results

/-! ## File manifests (get_zip_contents and the manifest build loop) -/

/-- One (non-directory) member of a zip archive: name within the archive and
uncompressed byte size, as read from `zf.infolist()`. -/
structure ZipEntryInfo where
  path : String
  size : Nat
deriving DecidableEq, Repr

/-- One input zip archive.  `onDisk` records whether the physical file is
still present (deletion flips it to false). -/
structure ZipArchive where
  name : String
  entries : List ZipEntryInfo
  onDisk : Bool
deriving DecidableEq, Repr

/-- One manifest entry (the dict built by get_zip_contents plus the
`zip_file`/`disposition` fields the processor adds, plus the fields
apply_immich_results_to_manifest writes). -/
structure MEntry where
  path : String
  filename : String
  size : Nat
  is_media : Bool
  is_google_photos : Bool
  is_json : Bool
  zip_file : String
  disposition : String
  immich_status : Option String
  immich_reason : Option String
  albums : List String
  tags : List String
deriving DecidableEq, Repr

/-- get_zip_contents for a single archive member. -/
def mkZipContent (info : ZipEntryInfo) : MEntry :=
  let filename := baseName info.path
  { path := info.path
    filename := filename
    size := info.size
    is_media := isMediaFile filename
    is_google_photos := isGooglePhotosPath info.path
    is_json := strEndsWith filename ".json"
    zip_file := ""
    disposition := ""
    immich_status := none
    immich_reason := none
    albums := []
    tags := [] }

/-- All members of a list of archives, each tagged with the name of its archive,
in the order the extraction loop visits them. -/
def allEntries (zips : List ZipArchive) : List (String × ZipEntryInfo) :=
  zips.flatMap (fun z => z.entries.map (fun e => (z.name, e)))

/-- The manifest build loop of process_google_photos_zips: get_zip_contents
per archive, then the processor adds the archive name and a pending disposition. -/
def buildManifest (zips : List ZipArchive) : List MEntry :=
  (allEntries zips).map (fun p => { mkZipContent p.2 with zip_file := p.1, disposition := "pending" })

/-- Per-entry body of apply_immich_results_to_manifest: non-media entries are
skipped; media entries found in the per-filename results map receive the
status-derived disposition, absent ones are marked unknown. -/
def applyOne (filesMap : List (String × FileRec)) (f : MEntry) : MEntry :=
  if !f.is_media then f
  else
    match filesMap.lookup f.filename with
    | some fr =>
      let dispo :=
        if fr.status = some .uploaded ∨ fr.status = some .upgraded then
          "imported_to_immich"
        else if fr.status = some .server_duplicate ∨ fr.status = some .local_duplicate ∨
                fr.status = some .server_better then
          "skipped_duplicate"
        else if fr.status = some .error then "error"
        else "processed"
      { f with immich_status := fr.status.map FileStatus.toStr
               immich_reason := fr.reason
               albums := fr.albums
               tags := fr.tags
               disposition := dispo }
    | none =>
      { f with immich_status := some "unknown"
               immich_reason := some "Not found in immich-go log"
               disposition := "unknown"
               albums := []
               tags := [] }

/-- apply_immich_results_to_manifest (modifies each entry in place). -/
def applyImmichResults (manifest : List MEntry) (results : Results) : List MEntry :=
  manifest.map (applyOne results.files)

/-! ## Reconciliation: extract_non_imported_from_zip -/

/-- Outcome of physically writing one file to the extraction target: the write
raised an exception, the destination is missing afterwards, or the destination
exists with the given byte size. -/
inductive ExtractOutcome where
  | raised
  | destMissing
  | written (destSize : Nat)
deriving DecidableEq, Repr

/-- Status of a filename in the per-filename results map
(`files_map.get(filename, {}).get('status')`). -/
def statusInResults (results : Results) (filename : String) : Option FileStatus :=
  match results.files.lookup filename with
  | some fr => fr.status
  | none => none

/-- was_imported: the status set treated as absorbed by the external tool. -/
def wasImported (st : Option FileStatus) : Bool :=
  match st with
  | some .uploaded | some .upgraded | some .server_duplicate
  | some .local_duplicate | some .server_better => true
  | _ => false

/-- Disposition that the body of the extraction loop assigns to one archive
member (the value written to the disposition field of the looked-up entry on every
path through the loop body), with the physical extraction modelled by
`oracle` applied to the destination path. -/
def zipEntryDecision (skipGP : Bool) (results : Results) (extractDir : String)
    (oracle : String → ExtractOutcome) (_zname : String) (info : ZipEntryInfo) : String :=
  let filename := baseName info.path
  let wasImp := wasImported (statusInResults results filename)
  let common :=
    if strEndsWith info.path ".json" then "skipped_json"
    else if wasImp then "imported_to_immich"
    else
      match oracle (extractDir ++ "/" ++ info.path) with
      | .written n => if n = info.size then "extracted" else "extract_failed"
      | .destMissing => "extract_failed"
      | .raised => "extract_failed"
  if skipGP && isGooglePhotosPath info.path then
    if isMediaFile filename && wasImp then "imported_to_immich"
    else if strEndsWith filename ".json" then "skipped_json"
    else common
  else common

/-- Replace the first element satisfying the predicate. -/
def updFirst (p : α → Bool) (g : α → α) : List α → List α
  | [] => []
  | a :: rest => if p a then g a :: rest else a :: updFirst p g rest

/-- Replace the last element satisfying the predicate — the element a Python
dict comprehension over the manifest would have kept for that key. -/
def updLast (p : α → Bool) (g : α → α) (l : List α) : List α :=
  (updFirst p g l.reverse).reverse

/-- Key of a manifest entry in manifest_lookup. -/
def mKey (m : MEntry) : String × String := (m.zip_file, m.path)

/-- Key of an archive member as the extraction loop forms it. -/
def zKey (p : String × ZipEntryInfo) : String × String := (p.1, p.2.path)

/-- State threaded through the extraction loop. -/
structure ExtractState where
  extracted : Nat
  failed : Nat
  manifest : List MEntry
deriving Repr

/-- One iteration of the extraction loop: compute the disposition, bump the
extracted/failed counters for extraction attempts, and record the disposition
on the manifest entry with this key when one exists. -/
def extractProcessEntry (skipGP : Bool) (results : Results) (extractDir : String)
    (oracle : String → ExtractOutcome) (s : ExtractState) (p : String × ZipEntryInfo) :
    ExtractState :=
  let d := zipEntryDecision skipGP results extractDir oracle p.1 p.2
  { extracted := if d = "extracted" then s.extracted + 1 else s.extracted
    failed := if d = "extract_failed" then s.failed + 1 else s.failed
    manifest := updLast (fun m => mKey m = zKey p) (fun m => { m with disposition := d }) s.manifest }

/-- extract_non_imported_from_zip: walk every member of every archive and fold
the loop body.  (Archives are assumed readable; an unreadable archive skips
its members in the source.) -/
def extractNonImportedFromZip (zips : List ZipArchive) (extractDir : String)
    (results : Results) (manifest : List MEntry) (skipGP : Bool)
    (oracle : String → ExtractOutcome) : ExtractState :=
  (allEntries zips).foldl (extractProcessEntry skipGP results extractDir oracle)
    { extracted := 0, failed := 0, manifest := manifest }

/-! ## Reconciliation: copy_remaining_from_folder -/

/-- Outcome of the optional copy of one not-imported file: the source file no
longer exists, the copy raised, the destination is missing afterwards, or both
files were stat-ed with the given byte sizes. -/
inductive CopyOutcome where
  | srcMissing
  | raised
  | destMissing
  | copied (destSize srcSize : Nat)
deriving DecidableEq, Repr

/-- Per-entry result of the copy_remaining_from_folder loop body: the new
disposition and the counter deltas (imported, not_imported, copy_failed). -/
def copyStepOne (results : Results) (copyFailed : Bool) (extractDirSet : Bool)
    (oracle : String → CopyOutcome) (f : MEntry) : String × Nat × Nat × Nat :=
  let st := statusInResults results f.filename
  if wasImported st then ("imported_to_immich", 1, 0, 0)
  else if strEndsWith f.path ".json" then ("skipped_json", 0, 0, 0)
  else
    let d1 :=
      match st with
      | some .error => "error"
      | some s => s.toStr
      | none => "not_processed"
    if copyFailed && extractDirSet then
      match oracle f.path with
      | .srcMissing => (d1, 0, 1, 0)
      | .raised => ("copy_failed", 0, 1, 1)
      | .destMissing => ("copy_failed", 0, 1, 1)
      | .copied destSize srcSize =>
        if destSize = srcSize then ("copied_for_review", 0, 1, 0)
        else ("copy_failed", 0, 1, 1)
    else (d1, 0, 1, 0)

/-- State threaded through the folder loop: counters plus the rebuilt manifest. -/
structure CopyState where
  imported : Nat
  notImported : Nat
  copyFailed : Nat
  manifest : List MEntry
deriving Repr

/-- copy_remaining_from_folder: every manifest entry gets the disposition and
counter deltas of `copyStepOne`. -/
def copyRemainingFromFolder (results : Results) (manifest : List MEntry)
    (copyFailed : Bool) (extractDirSet : Bool) (oracle : String → CopyOutcome) : CopyState :=
  manifest.foldl
    (fun s f =>
      let r := copyStepOne results copyFailed extractDirSet oracle f
      { imported := s.imported + r.2.1
        notImported := s.notImported + r.2.2.1
        copyFailed := s.copyFailed + r.2.2.2
        manifest := s.manifest ++ [{ f with disposition := r.1 }] })
    { imported := 0, notImported := 0, copyFailed := 0, manifest := [] }

/-! ## Orchestrator: ImportProcessor.process_google_photos_zips -/

/-- Observable outcome of one zip-import run: the returned pair, the finally
persisted job record fields, and the fate of the input archives. -/
structure OrchResult where
  success : Bool
  results : Results
  status : String
  errorDetails : Option String
  deletedZips : Bool
  zipsAfter : List ZipArchive
  manifest : List MEntry
  extractedCount : Nat
  failedCount : Nat
deriving Repr

/-- process_google_photos_zips, parameterised over the outcome of the
`runner.upload_google_photos` call (its returned pair, or the exception it
propagates).  On an exception the record is marked errored and
`(False, empty results)` is returned with nothing deleted; otherwise the
results are applied to the manifest, the non-imported content is extracted,
the final status is computed, and the archives are deleted exactly when
deletion was requested and the run was an error-free success. -/
def processGooglePhotosZips (zips : List ZipArchive) (extractDir : String)
    (oracle : String → ExtractOutcome) (deleteAfterImport : Bool)
    (run : Except String (Int × Results)) : OrchResult :=
  let manifest0 := buildManifest zips
  match run with
  | .error msg =>
    { success := false
      results := emptyResults
      status := "errored"
      errorDetails := some msg
      deletedZips := false
      zipsAfter := zips
      manifest := manifest0
      extractedCount := 0
      failedCount := 0 }
  | .ok (exitCode, results) =>
    let hasErr := hasErrors results
    let isSucc := isSuccess exitCode results
    let manifest1 := applyImmichResults manifest0 results
    let es := extractNonImportedFromZip zips extractDir results manifest1 true oracle
    let finalStatus :=
      if isSucc && !hasErr then "completed"
      else if hasErr then "completed_with_errors"
      else "failed"
    let doDelete := deleteAfterImport && isSucc && !hasErr
    { success := isSucc
      results := results
      status := finalStatus
      errorDetails := none
      deletedZips := doDelete
      zipsAfter := if doDelete then zips.map (fun z => { z with onDisk := false }) else zips
      manifest := es.manifest
      extractedCount := es.extracted
      failedCount := es.failed }

/-! ## Orchestrator: ImportProcessor.process_folder -/

/-- Observable outcome of one folder-import run. -/
structure FolderResult where
  success : Bool
  results : Results
  status : String
  errorDetails : Option String
  toolRan : Bool
  reconcilerRan : Bool
  manifest : List MEntry
  importedCount : Nat
  notImportedCount : Nat
  copyFailedCount : Nat
deriving Repr

/-- process_folder, parameterised over the manifest of the folder (built by the
metadata object from get_folder_contents, all dispositions pending) and the
outcome of the `runner.upload_folder` call.  An empty manifest
(file_count == 0) returns `(True, empty results)` before the tool is launched,
leaving the record in its initial running status.  The status field mirrors
the persisted record: running until update_status is reached. -/
def processFolder (manifest0 : List MEntry) (copyFailedFiles : Bool) (extractDirSet : Bool)
    (oracle : String → CopyOutcome) (run : Except String (Int × Results)) : FolderResult :=
  if manifest0.length = 0 then
    { success := true
      results := emptyResults
      status := "running"
      errorDetails := none
      toolRan := false
      reconcilerRan := false
      manifest := manifest0
      importedCount := 0
      notImportedCount := 0
      copyFailedCount := 0 }
  else
    match run with
    | .error msg =>
      { success := false
        results := emptyResults
        status := "errored"
        errorDetails := some msg
        toolRan := true
        reconcilerRan := false
        manifest := manifest0
        importedCount := 0
        notImportedCount := 0
        copyFailedCount := 0 }
    | .ok (exitCode, results) =>
      let hasErr := hasErrors results
      let isSucc := isSuccess exitCode results
      let cs := copyRemainingFromFolder results manifest0 copyFailedFiles extractDirSet oracle
      let finalStatus :=
        if isSucc && !hasErr then "completed"
        else if hasErr then "completed_with_errors"
        else "failed"
      { success := isSucc
        results := results
        status := finalStatus
        errorDetails := none
        toolRan := true
        reconcilerRan := true
        manifest := cs.manifest
        importedCount := cs.imported
        notImportedCount := cs.notImported
        copyFailedCount := cs.copyFailed }

/-! ## Credential redaction (`ImmichGoRunner._mask_api_key`) -/

/-- The mask substituted for the API key. -/
def maskStr : String := "***API_KEY***"

/-- Replace, left to right, each non-overlapping occurrence of the nonempty
pattern `p :: ps` by `rep`, as Python str.replace does.  The extra fuel
argument (called with the length of the string, which every step strictly
decreases) only makes the recursion structural; it never runs out. -/
def replGo (p : Char) (ps rep : List Char) : Nat → List Char → List Char
  | _, [] => []
  | 0, s => s
  | fuel + 1, c :: rest =>
    if (p :: ps) <+: (c :: rest) then rep ++ replGo p ps rep fuel (rest.drop ps.length)
    else c :: replGo p ps rep fuel rest

/-- Python str.replace with an empty pattern: the replacement is inserted
before every character and at the end. -/
def replEmptyPat (rep : List Char) : List Char → List Char
  | [] => rep
  | c :: rest => rep ++ c :: replEmptyPat rep rest

/-- Python `s.replace(pat, rep)`. -/
def pyReplace (s pat rep : String) : String :=
  match pat.toList with
  | [] => String.mk (replEmptyPat rep.toList s.toList)
  | p :: ps => String.mk (replGo p ps rep.toList s.toList.length s.toList)

/-- `_mask_api_key`: join the command words with spaces and replace every
occurrence of the API key by the mask. -/
def maskApiKey (apiKey : String) (cmd : List String) : String :=
  pyReplace (String.intercalate " " cmd) apiKey maskStr

/-- Number of manifest entries holding a given disposition. -/
def dispCount (man : List MEntry) (d : String) : Nat :=
  (man.filter (fun m => m.disposition = d)).length

/-- The dispositions the extraction loop can assign. -/
def dispositionValues : List String :=
  ["imported_to_immich", "skipped_json", "extracted", "extract_failed"]

/-- The manifest-only effect of one extraction-loop iteration (the manifest
projection of `extractProcessEntry`). -/
def manStep (skipGP : Bool) (results : Results) (extractDir : String)
    (oracle : String → ExtractOutcome) (man : List MEntry) (p : String × ZipEntryInfo) :
    List MEntry :=
  updLast (fun m => mKey m = zKey p)
    (fun m => { m with disposition := zipEntryDecision skipGP results extractDir oracle p.1 p.2 })
    man

/-! ## Helper lemmas about the tailing loop -/

theorem tailLogFile_results {σ : Type} (cb : σ → Event → Except String σ) :
    ∀ (lines : List (Option Event)) (r : Results) (st : σ),
    (tailLogFile cb lines r st).1 = List.foldl accumulate r (lines.filterMap id) := by
  intro lines
  induction lines with
  | nil => intro r st; rfl
  | cons hd tl ih =>
    intro r st
    cases hd with
    | none => simpa [tailLogFile] using ih r st
    | some e => simp [tailLogFile, ih]

theorem tailLogFile_invoked {σ : Type} (cb : σ → Event → Except String σ) :
    ∀ (lines : List (Option Event)) (r : Results) (st : σ),
    (tailLogFile cb lines r st).2.2 = lines.filterMap id := by
  intro lines
  induction lines with
  | nil => intro r st; rfl
  | cons hd tl ih =>
    intro r st
    cases hd with
    | none => simpa [tailLogFile] using ih r st
    | some e => simp [tailLogFile, ih]

/-! ## C10 -/

/-- C10: an exception raised by the caller-supplied event callback while
processing one log line is caught inside the tailing loop; the accumulated
results are exactly the fold of the parsed events — identical for any two
callbacks, however often they throw — and the event of every line is still
processed and handed to the callback. -/
theorem claim_C10 {σ₁ σ₂ : Type} (cb1 : σ₁ → Event → Except String σ₁)
    (cb2 : σ₂ → Event → Except String σ₂) (st1 : σ₁) (st2 : σ₂)
    (lines : List (Option Event)) (init : Results) :
    (tailLogFile cb1 lines init st1).1 = (tailLogFile cb2 lines init st2).1
    ∧ (tailLogFile cb1 lines init st1).1 = List.foldl accumulate init (lines.filterMap id)
    ∧ (tailLogFile cb1 lines init st1).2.2 = lines.filterMap id := by
  refine ⟨?_, tailLogFile_results cb1 lines init st1, tailLogFile_invoked cb1 lines init st1⟩
  rw [tailLogFile_results cb1 lines init st1, tailLogFile_results cb2 lines init st2]

/-! ## C9 -/

/-- C9: a folder whose manifest is empty makes process_folder return success
with empty results before the external tool is launched or reconciliation
runs, and the persisted record is never finalized: it stays in status
running.  The result is the same for every tool outcome `run`. -/
theorem claim_C9 (copyFlag dirSet : Bool) (oracle : String → CopyOutcome)
    (run : Except String (Int × Results)) :
    processFolder [] copyFlag dirSet oracle run =
      { success := true, results := emptyResults, status := "running",
        errorDetails := none, toolRan := false, reconcilerRan := false,
        manifest := [], importedCount := 0, notImportedCount := 0,
        copyFailedCount := 0 } := rfl

/-! ## C1 -/

/-- C1: the original archives are deleted if and only if deletion was
requested, the final exit code of the runner is 0 and the accumulated error
counter is 0; a propagated runner exception never deletes; whenever deletion
does not fire — in particular whenever the error counter is positive or the
exit code non-zero — every source archive is left untouched; and deletion
implies the persisted final status is completed. -/
theorem claim_C1 (zips : List ZipArchive) (extractDir : String)
    (oracle : String → ExtractOutcome) (del : Bool)
    (run : Except String (Int × Results)) :
    (∀ (e : Int) (r : Results), run = .ok (e, r) →
      ((processGooglePhotosZips zips extractDir oracle del run).deletedZips = true
        ↔ (del = true ∧ e = 0 ∧ r.summary.errors = 0)))
    ∧ (∀ msg, run = .error msg →
        (processGooglePhotosZips zips extractDir oracle del run).deletedZips = false)
    ∧ ((processGooglePhotosZips zips extractDir oracle del run).deletedZips = false →
        (processGooglePhotosZips zips extractDir oracle del run).zipsAfter = zips)
    ∧ (∀ (e : Int) (r : Results), run = .ok (e, r) → (0 < r.summary.errors ∨ e ≠ 0) →
        (processGooglePhotosZips zips extractDir oracle del run).zipsAfter = zips)
    ∧ ((processGooglePhotosZips zips extractDir oracle del run).deletedZips = true →
        (processGooglePhotosZips zips extractDir oracle del run).status = "completed") := by
  cases run with
  | error msg =>
    refine ⟨fun e r h => by simp at h, fun m h => rfl, fun _ => rfl,
      fun e r h => by simp at h, fun h => ?_⟩
    have hfd : (processGooglePhotosZips zips extractDir oracle del (.error msg)).deletedZips
        = false := rfl
    rw [hfd] at h
    cases h
  | ok pair =>
    obtain ⟨e0, r0⟩ := pair
    have hdel : (processGooglePhotosZips zips extractDir oracle del (.ok (e0, r0))).deletedZips
        = (del && isSuccess e0 r0 && !hasErrors r0) := rfl
    have hz : (processGooglePhotosZips zips extractDir oracle del (.ok (e0, r0))).zipsAfter
        = (if (del && isSuccess e0 r0 && !hasErrors r0) = true
           then zips.map (fun z => { z with onDisk := false }) else zips) := rfl
    have hst : (processGooglePhotosZips zips extractDir oracle del (.ok (e0, r0))).status
        = (if (isSuccess e0 r0 && !hasErrors r0) = true then "completed"
           else if hasErrors r0 = true then "completed_with_errors" else "failed") := rfl
    refine ⟨?_, fun m h => by simp at h, ?_, ?_, ?_⟩
    · intro e r h
      simp only [Except.ok.injEq, Prod.mk.injEq] at h
      obtain ⟨rfl, rfl⟩ := h
      rw [hdel]
      simp only [isSuccess, hasErrors, Bool.and_eq_true, decide_eq_true_eq,
        Bool.not_eq_true', decide_eq_false_iff_not, Nat.not_lt, Nat.le_zero]
      constructor
      · rintro ⟨⟨hd, he, herr⟩, -⟩
        exact ⟨hd, he, herr⟩
      · rintro ⟨hd, he, herr⟩
        exact ⟨⟨hd, he, herr⟩, herr⟩
    · intro h
      rw [hdel] at h
      rw [hz, h]
      simp
    · intro e r h herr
      simp only [Except.ok.injEq, Prod.mk.injEq] at h
      obtain ⟨rfl, rfl⟩ := h
      have hfalse : (del && isSuccess e0 r0 && !hasErrors r0) = false := by
        rcases herr with herr | herr
        · have : hasErrors r0 = true := by simp [hasErrors, herr]
          simp [this]
        · have : isSuccess e0 r0 = false := by simp [isSuccess, herr]
          simp [this]
      rw [hz, hfalse]
      simp
    · intro h
      rw [hdel] at h
      simp only [Bool.and_eq_true, Bool.not_eq_true'] at h
      rw [hst]
      simp [h.1.2, h.2]

/-! ## C2 -/

/-- C2 counterexample: with exit code 1, zero logged errors and five uploads
(partial progress was made), the computed final status is still failed,
contradicting the claim that failed is assigned exactly when the exit code is
non-zero and the run made no partial progress. -/
theorem claim_C2_cex :
    (processGooglePhotosZips [] "/x" (fun _ => ExtractOutcome.raised) false
      (.ok (1, { summary := { emptySummary with uploaded := 5 }, files := [] }))).status
      = "failed"
    ∧ ({ emptySummary with uploaded := 5 } : Summary).uploaded ≠ 0
    ∧ (1 : Int) ≠ 0 :=
  ⟨rfl, by decide, by decide⟩

/-- C2 amended: for every run that reaches finalization (the runner returned
a pair; for folders, the manifest is nonempty so the early return is not
taken), the persisted status is completed exactly when the exit code is 0 and
the error counter is 0; completed_with_errors exactly when errors are
present; and failed exactly when the exit code is non-zero and the error
counter is 0 — regardless of how many files were uploaded. -/
theorem claim_C2 (zips : List ZipArchive) (extractDir : String)
    (oracle : String → ExtractOutcome) (del : Bool)
    (manifest0 : List MEntry) (copyFlag dirSet : Bool) (foracle : String → CopyOutcome)
    (run : Except String (Int × Results)) (e : Int) (r : Results)
    (hrun : run = .ok (e, r)) (hne : manifest0 ≠ []) :
    ((processGooglePhotosZips zips extractDir oracle del run).status = "completed"
      ↔ (e = 0 ∧ r.summary.errors = 0))
    ∧ ((processGooglePhotosZips zips extractDir oracle del run).status = "completed_with_errors"
      ↔ 0 < r.summary.errors)
    ∧ ((processGooglePhotosZips zips extractDir oracle del run).status = "failed"
      ↔ (e ≠ 0 ∧ r.summary.errors = 0))
    ∧ ((processFolder manifest0 copyFlag dirSet foracle run).status = "completed"
      ↔ (e = 0 ∧ r.summary.errors = 0))
    ∧ ((processFolder manifest0 copyFlag dirSet foracle run).status = "completed_with_errors"
      ↔ 0 < r.summary.errors)
    ∧ ((processFolder manifest0 copyFlag dirSet foracle run).status = "failed"
      ↔ (e ≠ 0 ∧ r.summary.errors = 0)) := by
  subst hrun
  have hlen : ¬ manifest0.length = 0 := by
    simpa [List.length_eq_zero] using hne
  by_cases h1 : r.summary.errors = 0 <;> by_cases h2 : e = 0
  · simp [processGooglePhotosZips, processFolder, isSuccess, hasErrors, hlen, h1, h2]
  · simp [processGooglePhotosZips, processFolder, isSuccess, hasErrors, hlen, h1, h2]
  all_goals {
    have h1' : 0 < r.summary.errors := Nat.pos_of_ne_zero h1
    simp [processGooglePhotosZips, processFolder, isSuccess, hasErrors, hlen, h1, h2, h1'] }

/-- Witness for C1 at a concrete archive: an error-free exit-0 run with
deletion requested deletes, and a run with two logged errors leaves the
archives untouched. -/
theorem claim_C1_witness :
    (processGooglePhotosZips
      [{ name := "takeout-001.zip",
         entries := [{ path := "Takeout/Google Photos/a.jpg", size := 3 }],
         onDisk := true }]
      "/e" (fun _ => ExtractOutcome.written 3) true (.ok (0, emptyResults))).deletedZips = true
    ∧ (processGooglePhotosZips
      [{ name := "takeout-001.zip",
         entries := [{ path := "Takeout/Google Photos/a.jpg", size := 3 }],
         onDisk := true }]
      "/e" (fun _ => ExtractOutcome.written 3) true
      (.ok (0, { summary := { emptySummary with errors := 2 }, files := [] }))).zipsAfter
      = [{ name := "takeout-001.zip",
           entries := [{ path := "Takeout/Google Photos/a.jpg", size := 3 }],
           onDisk := true }] := by
  constructor
  · exact ((claim_C1 _ "/e" (fun _ => ExtractOutcome.written 3) true
      (.ok (0, emptyResults))).1 0 emptyResults rfl).mpr ⟨rfl, rfl, rfl⟩
  · exact (claim_C1 _ "/e" (fun _ => ExtractOutcome.written 3) true
      (.ok (0, { summary := { emptySummary with errors := 2 }, files := [] }))).2.2.2.1
      0 _ rfl (Or.inl (by decide))

/-- Witness for C2 at concrete runs: exit 0 with no errors finalizes both
orchestrators as completed, and exit 0 with errors finalizes them as
completed_with_errors. -/
theorem claim_C2_witness :
    (processGooglePhotosZips [] "/x" (fun _ => ExtractOutcome.raised) false
      (.ok (0, emptyResults))).status = "completed"
    ∧ (processFolder
      [{ path := "a.jpg", filename := "a.jpg", size := 1, is_media := true,
         is_google_photos := false, is_json := false, zip_file := "",
         disposition := "pending", immich_status := none, immich_reason := none,
         albums := [], tags := [] }]
      false false (fun _ => CopyOutcome.srcMissing)
      (.ok (0, { summary := { emptySummary with errors := 1 }, files := [] }))).status
      = "completed_with_errors" := by
  constructor
  · exact (claim_C2 [] "/x" (fun _ => ExtractOutcome.raised) false
      [{ path := "a.jpg", filename := "a.jpg", size := 1, is_media := true,
         is_google_photos := false, is_json := false, zip_file := "",
         disposition := "pending", immich_status := none, immich_reason := none,
         albums := [], tags := [] }]
      false false (fun _ => CopyOutcome.srcMissing) _ 0 emptyResults rfl
      (by simp)).1.mpr ⟨rfl, rfl⟩
  · exact (claim_C2 [] "/x" (fun _ => ExtractOutcome.raised) false _ false false
      (fun _ => CopyOutcome.srcMissing) _ 0
      { summary := { emptySummary with errors := 1 }, files := [] } rfl
      (by simp)).2.2.2.2.1.mpr (by decide)

/-! ## Helper lemmas about the retry loop -/

theorem runFrom_unfold {σ : Type} (attempts : Nat → LaunchResult)
    (cb : σ → Event → Except String σ) (i rem : Nat) (log : List (Option Event)) (st : σ) :
    runFrom attempts cb i rem log st
    = match attempts i with
      | .raised msg => .error (msg, i)
      | .ran exitCode lines =>
        let out := tailLogFile cb (log ++ lines) emptyResults st
        if exitCode = 0 then .ok (exitCode, out.1, out.2.1, i)
        else
          match rem with
          | 0 => .ok (exitCode, out.1, out.2.1, i)
          | r + 1 => runFrom attempts cb (i + 1) r [] out.2.1 := by
  rw [runFrom.eq_def]

theorem runFrom_skip_success {σ : Type} (attempts : Nat → LaunchResult)
    (cb : σ → Event → Except String σ) :
    ∀ (n i rem : Nat) (st : σ) (lines : List (Option Event)),
    (∀ j, i ≤ j → j < i + n → ∃ c l, attempts j = .ran c l ∧ c ≠ 0) →
    attempts (i + n) = .ran 0 lines → n ≤ rem →
    ∃ st' : σ, runFrom attempts cb i rem [] st
      = .ok (0, List.foldl accumulate emptyResults (lines.filterMap id), st', i + n) := by
  intro n
  induction n with
  | zero =>
    intro i rem st lines _ hk _
    rw [Nat.add_zero] at hk
    refine ⟨(tailLogFile cb ([] ++ lines) emptyResults st).2.1, ?_⟩
    rw [runFrom_unfold, hk]
    simp [tailLogFile_results]
  | succ n ih =>
    intro i rem st lines hprev hk hle
    obtain ⟨c, l, hi, hc⟩ := hprev i (Nat.le_refl i) (by omega)
    cases rem with
    | zero => omega
    | succ rem' =>
      rw [runFrom_unfold, hi]
      simp only [hc, if_false, ite_false]
      have hshift : i + (n + 1) = (i + 1) + n := by omega
      rw [hshift] at hk ⊢
      exact ih (i + 1) rem' _ lines
        (fun j h1 h2 => hprev j (by omega) (by omega)) hk (by omega)

theorem runFrom_exhaust {σ : Type} (attempts : Nat → LaunchResult)
    (cb : σ → Event → Except String σ) :
    ∀ (n i : Nat) (st : σ) (c : Int) (lines : List (Option Event)),
    (∀ j, i ≤ j → j < i + n → ∃ c' l', attempts j = .ran c' l' ∧ c' ≠ 0) →
    attempts (i + n) = .ran c lines →
    ∃ st' : σ, runFrom attempts cb i n [] st
      = .ok (c, List.foldl accumulate emptyResults (lines.filterMap id), st', i + n) := by
  intro n
  induction n with
  | zero =>
    intro i st c lines _ hk
    rw [Nat.add_zero] at hk
    refine ⟨(tailLogFile cb ([] ++ lines) emptyResults st).2.1, ?_⟩
    rw [runFrom_unfold, hk]
    by_cases hc : c = 0 <;> simp [hc, tailLogFile_results]
  | succ n ih =>
    intro i st c lines hprev hk
    obtain ⟨c', l', hi, hc'⟩ := hprev i (Nat.le_refl i) (by omega)
    rw [runFrom_unfold, hi]
    simp only [hc', if_false, ite_false]
    have hshift : i + (n + 1) = (i + 1) + n := by omega
    rw [hshift] at hk ⊢
    exact ih (i + 1) _ c lines (fun j h1 h2 => hprev j (by omega) (by omega)) hk

theorem runFrom_raise {σ : Type} (attempts : Nat → LaunchResult)
    (cb : σ → Event → Except String σ) :
    ∀ (n i rem : Nat) (st : σ) (msg : String),
    (∀ j, i ≤ j → j < i + n → ∃ c l, attempts j = .ran c l ∧ c ≠ 0) →
    attempts (i + n) = .raised msg → n ≤ rem →
    runFrom attempts cb i rem [] st = .error (msg, i + n) := by
  intro n
  induction n with
  | zero =>
    intro i rem st msg _ hk _
    rw [Nat.add_zero] at hk
    rw [runFrom_unfold, hk]
    simp
  | succ n ih =>
    intro i rem st msg hprev hk hle
    obtain ⟨c, l, hi, hc⟩ := hprev i (Nat.le_refl i) (by omega)
    cases rem with
    | zero => omega
    | succ rem' =>
      rw [runFrom_unfold, hi]
      simp only [hc, if_false, ite_false]
      have hshift : i + (n + 1) = (i + 1) + n := by omega
      rw [hshift] at hk ⊢
      exact ih (i + 1) rem' _ msg
        (fun j h1 h2 => hprev j (by omega) (by omega)) hk (by omega)

theorem runFrom_congr {σ : Type} (f g : Nat → LaunchResult)
    (cb : σ → Event → Except String σ) :
    ∀ (rem i : Nat) (log : List (Option Event)) (st : σ),
    (∀ j, i ≤ j → j ≤ i + rem → f j = g j) →
    runFrom f cb i rem log st = runFrom g cb i rem log st := by
  intro rem
  induction rem with
  | zero =>
    intro i log st hagree
    rw [runFrom_unfold, runFrom_unfold, hagree i (Nat.le_refl i) (by omega)]
  | succ rem' ih =>
    intro i log st hagree
    rw [runFrom_unfold, runFrom_unfold, hagree i (Nat.le_refl i) (by omega)]
    cases g i with
    | raised msg => rfl
    | ran c lines =>
      by_cases hc : c = 0
      · simp [hc]
      · simp only [hc, if_false, ite_false]
        exact ih (i + 1) [] _ (fun j h1 h2 => hagree j (by omega) (by omega))

/-! ## C3 -/

/-- C3: in the retry loop, the first attempt k that exits 0 returns the
exit code of that attempt and its summary — accumulated from a fresh empty
accumulator over only the log lines of that attempt, the log file having been
deleted at the start of each retry — as soon as it happens (the result does
not depend on any later attempt: any attempt function agreeing up to
max_retries gives the same outcome); if every allowed attempt exits non-zero,
the exit code and summary of the last attempt are returned after exactly
max_retries attempts. -/
theorem claim_C3 {σ : Type} (attempts : Nat → LaunchResult)
    (cb : σ → Event → Except String σ) (st : σ) (maxRetries : Nat) :
    (∀ (k : Nat) (lines : List (Option Event)), 1 ≤ k → k ≤ maxRetries →
      (∀ j, 1 ≤ j → j < k → ∃ c l, attempts j = .ran c l ∧ c ≠ 0) →
      attempts k = .ran 0 lines →
      ∃ st' : σ, runWithRetry attempts cb maxRetries st
        = .ok (0, List.foldl accumulate emptyResults (lines.filterMap id), st', k))
    ∧ (∀ (c : Int) (lines : List (Option Event)), 1 ≤ maxRetries →
      (∀ j, 1 ≤ j → j < maxRetries → ∃ c' l', attempts j = .ran c' l' ∧ c' ≠ 0) →
      attempts maxRetries = .ran c lines →
      ∃ st' : σ, runWithRetry attempts cb maxRetries st
        = .ok (c, List.foldl accumulate emptyResults (lines.filterMap id), st', maxRetries))
    ∧ (∀ g : Nat → LaunchResult, (∀ j, 1 ≤ j → j ≤ maxRetries → attempts j = g j) →
      runWithRetry attempts cb maxRetries st = runWithRetry g cb maxRetries st) := by
  refine ⟨?_, ?_, ?_⟩
  · intro k lines hk1 hkmax hprev hk
    cases maxRetries with
    | zero => omega
    | succ m =>
      have hk' : attempts (1 + (k - 1)) = .ran 0 lines := by
        have : 1 + (k - 1) = k := by omega
        rw [this]; exact hk
      have h := runFrom_skip_success attempts cb (k - 1) 1 m st lines
        (fun j h1 h2 => hprev j h1 (by omega)) hk' (by omega)
      have : 1 + (k - 1) = k := by omega
      rw [this] at h
      exact h
  · intro c lines hmax hprev hk
    cases maxRetries with
    | zero => omega
    | succ m =>
      have hk' : attempts (1 + m) = .ran c lines := by
        have : 1 + m = m + 1 := by omega
        rw [this]; exact hk
      have h := runFrom_exhaust attempts cb m 1 st c lines
        (fun j h1 h2 => hprev j h1 (by omega)) hk'
      have : 1 + m = m + 1 := by omega
      rw [this] at h
      exact h
  · intro g hagree
    cases maxRetries with
    | zero => rfl
    | succ m =>
      exact runFrom_congr attempts g cb m 1 [] st
        (fun j h1 h2 => hagree j h1 (by omega))

/-- Witness for C3: with attempt 1 exiting 1 and attempt 2 exiting 0 under a
ceiling of 3, the loop returns the exit code of attempt 2 and a summary computed
only from the log lines of attempt 2. -/
theorem claim_C3_witness :
    ∃ st' : Unit, runWithRetry
      (fun j => if j = 1 then .ran 1 [some (.file_result "a.jpg" .error none)]
                else .ran 0 [some (.file_result "a.jpg" .uploaded none), none])
      (fun s _ => .ok s) 3 ()
      = .ok (0, List.foldl accumulate emptyResults
          [Event.file_result "a.jpg" .uploaded none], st', 2) := by
  obtain ⟨st', h⟩ := (claim_C3
    (fun j => if j = 1 then .ran 1 [some (.file_result "a.jpg" .error none)]
              else .ran 0 [some (.file_result "a.jpg" .uploaded none), none])
    (fun s _ => .ok s) () 3).1 2
    [some (.file_result "a.jpg" .uploaded none), none]
    (by omega) (by omega)
    (by
      intro j h1 h2
      have hj : j = 1 := by omega
      subst hj
      exact ⟨1, [some (.file_result "a.jpg" .error none)], rfl, by decide⟩)
    rfl
  exact ⟨st', h⟩

/-! ## C6 -/

/-- C6: a launch exception at attempt k propagates out of the retry loop
immediately — no further attempt runs even though the ceiling allows more —
and the orchestrator catches it, marks the record errored with the message in
error_details, deletes nothing, and returns failure with empty results. -/
theorem claim_C6 {σ : Type} (attempts : Nat → LaunchResult)
    (cb : σ → Event → Except String σ) (st : σ) (maxRetries k : Nat) (msg : String)
    (zips : List ZipArchive) (extractDir : String) (oracle : String → ExtractOutcome)
    (del : Bool)
    (hprev : ∀ j, 1 ≤ j → j < k → ∃ c l, attempts j = .ran c l ∧ c ≠ 0)
    (hk : attempts k = .raised msg) (hk1 : 1 ≤ k) (hkmax : k ≤ maxRetries) :
    runWithRetry attempts cb maxRetries st = .error (msg, k)
    ∧ (processGooglePhotosZips zips extractDir oracle del
        (adaptRun (runWithRetry attempts cb maxRetries st))).status = "errored"
    ∧ (processGooglePhotosZips zips extractDir oracle del
        (adaptRun (runWithRetry attempts cb maxRetries st))).errorDetails = some msg
    ∧ (processGooglePhotosZips zips extractDir oracle del
        (adaptRun (runWithRetry attempts cb maxRetries st))).success = false
    ∧ (processGooglePhotosZips zips extractDir oracle del
        (adaptRun (runWithRetry attempts cb maxRetries st))).results = emptyResults
    ∧ (processGooglePhotosZips zips extractDir oracle del
        (adaptRun (runWithRetry attempts cb maxRetries st))).deletedZips = false := by
  have hrun : runWithRetry attempts cb maxRetries st = .error (msg, k) := by
    cases maxRetries with
    | zero => omega
    | succ m =>
      have hk' : attempts (1 + (k - 1)) = .raised msg := by
        have : 1 + (k - 1) = k := by omega
        rw [this]; exact hk
      have h := runFrom_raise attempts cb (k - 1) 1 m st msg
        (fun j h1 h2 => hprev j h1 (by omega)) hk' (by omega)
      have : 1 + (k - 1) = k := by omega
      rw [this] at h
      exact h
  rw [hrun]
  exact ⟨rfl, rfl, rfl, rfl, rfl, rfl⟩

/-- Witness for C6: a launch failure at the very first attempt under a
ceiling of 3 yields the propagated message, an errored record and no
deletion. -/
theorem claim_C6_witness :
    runWithRetry (fun _ => LaunchResult.raised "binary not found")
      (fun (s : Unit) _ => .ok s) 3 () = .error ("binary not found", 1)
    ∧ (processGooglePhotosZips [] "/e" (fun _ => ExtractOutcome.raised) true
        (adaptRun (runWithRetry (fun _ => LaunchResult.raised "binary not found")
          (fun (s : Unit) _ => .ok s) 3 ()))).status = "errored" := by
  have h := claim_C6 (fun _ => LaunchResult.raised "binary not found")
    (fun (s : Unit) _ => .ok s) () 3 1 "binary not found" [] "/e"
    (fun _ => ExtractOutcome.raised) true
    (by intro j h1 h2; omega) rfl (by omega) (by omega)
  exact ⟨h.1, h.2.1⟩

/-! ## String facts used by the reconciliation claims -/

theorem strEndsWith_iff {s suf : String} : strEndsWith s suf = true ↔ suf.toList <:+ s.toList := by
  simp [strEndsWith]

theorem baseName_toList (p : String) :
    (baseName p).toList = (p.toList.reverse.takeWhile (fun c => c ≠ '/')).reverse := rfl

theorem baseName_sfx (p : String) : (baseName p).toList <:+ p.toList := by
  rw [baseName_toList]
  refine ⟨(p.toList.reverse.dropWhile (fun c => c ≠ '/')).reverse, ?_⟩
  rw [← List.reverse_append, List.takeWhile_append_dropWhile, List.reverse_reverse]

theorem baseJson_path {p : String} (h : strEndsWith (baseName p) ".json" = true) :
    strEndsWith p ".json" = true := by
  rw [strEndsWith_iff] at h ⊢
  exact h.trans (baseName_sfx p)

theorem rev_of_json_sfx {p : String} (pre : List Char)
    (hpre : pre ++ ".json".toList = p.toList) :
    p.toList.reverse = ['n', 'o', 's', 'j', '.'] ++ pre.reverse := by
  rw [← hpre, List.reverse_append]
  rfl

theorem pathJson_base {p : String} (h : strEndsWith p ".json" = true) :
    strEndsWith (baseName p) ".json" = true := by
  rw [strEndsWith_iff] at h ⊢
  obtain ⟨pre, hpre⟩ := h
  rw [baseName_toList, rev_of_json_sfx pre hpre]
  have htw : List.takeWhile (fun c => c ≠ '/') (['n', 'o', 's', 'j', '.'] ++ pre.reverse)
      = ['n', 'o', 's', 'j', '.'] ++ List.takeWhile (fun c => c ≠ '/') pre.reverse := by
    simp [List.takeWhile_cons]
  rw [htw]
  exact ⟨(List.takeWhile (fun c => c ≠ '/') pre.reverse).reverse, by
    rw [List.reverse_append]; rfl⟩

theorem jsonNotMedia {n : String} (h : strEndsWith n ".json" = true) :
    isMediaFile n = false := by
  rw [strEndsWith_iff] at h
  obtain ⟨pre, hpre⟩ := h
  have hext : extOf n = ".json" := by
    have hdot : '.' ∈ n.toList := by
      rw [← hpre]
      simp
    unfold extOf
    rw [if_pos hdot, rev_of_json_sfx pre hpre]
    have htw : List.takeWhile (fun c => c ≠ '.') (['n', 'o', 's', 'j', '.'] ++ pre.reverse)
        = ['n', 'o', 's', 'j'] := by
      simp [List.takeWhile_cons]
    rw [htw]
    rfl
  rw [isMediaFile, hext]
  decide

/-! ## Characterisations of the per-entry reconciliation decisions -/

theorem zipDecision_json (results : Results) (extractDir : String)
    (oracle : String → ExtractOutcome) (zn : String) (info : ZipEntryInfo)
    (hj : strEndsWith info.path ".json" = true) :
    zipEntryDecision true results extractDir oracle zn info = "skipped_json" := by
  have hbj : strEndsWith (baseName info.path) ".json" = true := pathJson_base hj
  have hm : isMediaFile (baseName info.path) = false := jsonNotMedia hbj
  simp only [zipEntryDecision]
  by_cases hgp : isGooglePhotosPath info.path = true
  · simp [hgp, hm, hbj, hj]
  · simp at hgp
    simp [hgp, hj]

theorem zipDecision_imported (results : Results) (extractDir : String)
    (oracle : String → ExtractOutcome) (zn : String) (info : ZipEntryInfo)
    (hw : wasImported (statusInResults results (baseName info.path)) = true)
    (hj : strEndsWith info.path ".json" = false) :
    zipEntryDecision true results extractDir oracle zn info = "imported_to_immich" := by
  have hbj : strEndsWith (baseName info.path) ".json" = false := by
    cases hb : strEndsWith (baseName info.path) ".json" with
    | false => rfl
    | true => rw [baseJson_path hb] at hj; cases hj
  simp only [zipEntryDecision]
  by_cases hgp : isGooglePhotosPath info.path = true
  · by_cases hmed : isMediaFile (baseName info.path) = true
    · simp [hgp, hmed, hw]
    · simp at hmed
      simp [hgp, hmed, hbj, hj, hw]
  · simp at hgp
    simp [hgp, hj, hw]

theorem zipDecision_extract (results : Results) (extractDir : String)
    (oracle : String → ExtractOutcome) (zn : String) (info : ZipEntryInfo)
    (hw : wasImported (statusInResults results (baseName info.path)) = false)
    (hj : strEndsWith info.path ".json" = false) :
    zipEntryDecision true results extractDir oracle zn info
      = match oracle (extractDir ++ "/" ++ info.path) with
        | .written n => if n = info.size then "extracted" else "extract_failed"
        | .destMissing => "extract_failed"
        | .raised => "extract_failed" := by
  have hbj : strEndsWith (baseName info.path) ".json" = false := by
    cases hb : strEndsWith (baseName info.path) ".json" with
    | false => rfl
    | true => rw [baseJson_path hb] at hj; cases hj
  simp only [zipEntryDecision]
  by_cases hgp : isGooglePhotosPath info.path = true
  · simp [hgp, hw, hbj, hj]
  · simp at hgp
    simp [hgp, hj, hw]

theorem zipDecision_extract_iff (results : Results) (extractDir : String)
    (oracle : String → ExtractOutcome) (zn : String) (info : ZipEntryInfo)
    (hd : zipEntryDecision true results extractDir oracle zn info = "extracted" ∨
          zipEntryDecision true results extractDir oracle zn info = "extract_failed") :
    wasImported (statusInResults results (baseName info.path)) = false ∧
    strEndsWith info.path ".json" = false := by
  have hj : strEndsWith info.path ".json" = false := by
    cases hb : strEndsWith info.path ".json" with
    | false => rfl
    | true =>
      rw [zipDecision_json results extractDir oracle zn info hb] at hd
      rcases hd with hd | hd <;> exact absurd hd (by decide)
  refine ⟨?_, hj⟩
  cases hb : wasImported (statusInResults results (baseName info.path)) with
  | false => rfl
  | true =>
    rw [zipDecision_imported results extractDir oracle zn info hb hj] at hd
    rcases hd with hd | hd <;> exact absurd hd (by decide)

/-! ## C7 -/

/-- C7 counterexample: a .json archive member whose per-filename status is
uploaded — an absorbed status — is marked skipped_json during zip
reconciliation, not imported_to_immich as the claim requires. -/
theorem claim_C7_cex :
    zipEntryDecision true
      { summary := emptySummary,
        files := [("notes.json",
          { status := some .uploaded, reason := none, albums := [], tags := [] })] }
      "/e" (fun _ => ExtractOutcome.written 5) "z1" { path := "notes.json", size := 7 }
      = "skipped_json"
    ∧ "skipped_json" ≠ "imported_to_immich" := by
  refine ⟨?_, by decide⟩
  rfl

/-- C7 amended: absorbed files are never extracted or copied.  In the zip
case a .json member is always marked skipped_json — even when its status is
absorbed — a non-json member with absorbed status is marked
imported_to_immich, and extraction is attempted exactly for the non-json
non-absorbed members.  In the folder case the absorbed check comes first:
absorbed files (json included) are marked imported_to_immich, non-absorbed
json files are marked skipped_json, and only non-absorbed non-json files can
end as copied_for_review or copy_failed. -/
theorem claim_C7 (results : Results) (extractDir : String)
    (oracle : String → ExtractOutcome) (foracle : String → CopyOutcome)
    (zn : String) (info : ZipEntryInfo) (f : MEntry) (copyFlag dirSet : Bool) :
    (wasImported (statusInResults results (baseName info.path)) = true →
      strEndsWith info.path ".json" = false →
      zipEntryDecision true results extractDir oracle zn info = "imported_to_immich")
    ∧ (strEndsWith info.path ".json" = true →
      zipEntryDecision true results extractDir oracle zn info = "skipped_json")
    ∧ (zipEntryDecision true results extractDir oracle zn info = "extracted" ∨
       zipEntryDecision true results extractDir oracle zn info = "extract_failed" →
      wasImported (statusInResults results (baseName info.path)) = false ∧
      strEndsWith info.path ".json" = false)
    ∧ (wasImported (statusInResults results f.filename) = true →
      copyStepOne results copyFlag dirSet foracle f = ("imported_to_immich", 1, 0, 0))
    ∧ (wasImported (statusInResults results f.filename) = false →
      strEndsWith f.path ".json" = true →
      copyStepOne results copyFlag dirSet foracle f = ("skipped_json", 0, 0, 0))
    ∧ ((copyStepOne results copyFlag dirSet foracle f).1 = "copied_for_review" ∨
       (copyStepOne results copyFlag dirSet foracle f).1 = "copy_failed" →
      wasImported (statusInResults results f.filename) = false ∧
      strEndsWith f.path ".json" = false) := by
  refine ⟨fun hw hj => zipDecision_imported results extractDir oracle zn info hw hj,
    fun hj => zipDecision_json results extractDir oracle zn info hj,
    fun hd => zipDecision_extract_iff results extractDir oracle zn info hd,
    fun hw => by simp [copyStepOne, hw],
    fun hw hj => by simp [copyStepOne, hw, hj],
    fun hd => ?_⟩
  have hw : wasImported (statusInResults results f.filename) = false := by
    cases hb : wasImported (statusInResults results f.filename) with
    | false => rfl
    | true => simp [copyStepOne, hb] at hd
  have hj : strEndsWith f.path ".json" = false := by
    cases hb : strEndsWith f.path ".json" with
    | false => rfl
    | true => simp [copyStepOne, hw, hb] at hd
  exact ⟨hw, hj⟩

/-- Witness for C7 at concrete inputs: an absorbed non-json member is marked
imported in the zip case, and an absorbed file is marked imported in the
folder case. -/
theorem claim_C7_witness :
    zipEntryDecision true
      { summary := emptySummary,
        files := [("a.jpg", { status := some .uploaded, reason := none, albums := [], tags := [] })] }
      "/e" (fun _ => ExtractOutcome.written 3) "z1" { path := "a.jpg", size := 3 }
      = "imported_to_immich"
    ∧ copyStepOne
      { summary := emptySummary,
        files := [("b.json", { status := some .upgraded, reason := none, albums := [], tags := [] })] }
      true true (fun _ => CopyOutcome.copied 3 3)
      { path := "b.json", filename := "b.json", size := 3, is_media := false,
        is_google_photos := false, is_json := true, zip_file := "",
        disposition := "pending", immich_status := none, immich_reason := none,
        albums := [], tags := [] }
      = ("imported_to_immich", 1, 0, 0) := by
  constructor
  · exact (claim_C7
      { summary := emptySummary,
        files := [("a.jpg", { status := some .uploaded, reason := none, albums := [], tags := [] })] }
      "/e" (fun _ => ExtractOutcome.written 3) (fun _ => CopyOutcome.copied 3 3) "z1"
      { path := "a.jpg", size := 3 }
      { path := "b.json", filename := "b.json", size := 3, is_media := false,
        is_google_photos := false, is_json := true, zip_file := "",
        disposition := "pending", immich_status := none, immich_reason := none,
        albums := [], tags := [] }
      true true).1 (by decide) (by decide)
  · exact (claim_C7
      { summary := emptySummary,
        files := [("b.json", { status := some .upgraded, reason := none, albums := [], tags := [] })] }
      "/e" (fun _ => ExtractOutcome.written 3) (fun _ => CopyOutcome.copied 3 3) "z1"
      { path := "a.jpg", size := 3 }
      { path := "b.json", filename := "b.json", size := 3, is_media := false,
        is_google_photos := false, is_json := true, zip_file := "",
        disposition := "pending", immich_status := none, immich_reason := none,
        albums := [], tags := [] }
      true true).2.2.2.1 (by decide)

/-! ## List-update machinery for the extraction loop -/

theorem updFirst_of_none {α : Type} (p : α → Bool) (g : α → α) :
    ∀ l : List α, (∀ x ∈ l, p x = false) → updFirst p g l = l := by
  intro l
  induction l with
  | nil => intro _; rfl
  | cons a l ih =>
    intro h
    have ha : p a = false := h a (List.mem_cons_self a l)
    simp only [updFirst, ha, Bool.false_eq_true, if_false, ite_false]
    rw [ih (fun x hx => h x (List.mem_cons_of_mem a hx))]

theorem updFirst_append_none {α : Type} (p : α → Bool) (g : α → α) :
    ∀ (a b : List α), (∀ x ∈ a, p x = false) →
    updFirst p g (a ++ b) = a ++ updFirst p g b := by
  intro a
  induction a with
  | nil => intro b _; rfl
  | cons x a ih =>
    intro b h
    have hx : p x = false := h x (List.mem_cons_self x a)
    simp only [List.cons_append, updFirst, hx, Bool.false_eq_true, if_false, ite_false,
      List.append_eq]
    rw [ih b (fun y hy => h y (List.mem_cons_of_mem x hy))]

theorem updFirst_append_last {α : Type} (p : α → Bool) (g : α → α) (m : α)
    (hm : p m = false) :
    ∀ a : List α, updFirst p g (a ++ [m]) = updFirst p g a ++ [m] := by
  intro a
  induction a with
  | nil => simp [updFirst, hm]
  | cons x a ih =>
    by_cases hx : p x = true
    · simp [updFirst, hx]
    · simp only [Bool.not_eq_true] at hx
      simp only [List.cons_append, updFirst, hx, Bool.false_eq_true, if_false, ite_false,
        List.append_eq]
      rw [ih]

theorem updLast_cons_none {α : Type} (p : α → Bool) (g : α → α) (m : α) (l : List α)
    (h : ∀ x ∈ l, p x = false) :
    updLast p g (m :: l) = (if p m then g m else m) :: l := by
  unfold updLast
  rw [List.reverse_cons,
    updFirst_append_none p g l.reverse [m] (fun x hx => h x (List.mem_reverse.mp hx))]
  have hone : updFirst p g [m] = [if p m then g m else m] := by
    by_cases hm : p m <;> simp [updFirst, hm]
  rw [hone, List.reverse_append, List.reverse_reverse]
  rfl

theorem updLast_cons_neg {α : Type} (p : α → Bool) (g : α → α) (m : α) (l : List α)
    (hm : p m = false) :
    updLast p g (m :: l) = m :: updLast p g l := by
  unfold updLast
  rw [List.reverse_cons, updFirst_append_last p g m hm l.reverse, List.reverse_append]
  rfl

/-! ## The extraction fold: projections and characterisation -/

theorem extract_fold_manifest (skipGP : Bool) (results : Results) (extractDir : String)
    (oracle : String → ExtractOutcome) :
    ∀ (es : List (String × ZipEntryInfo)) (s : ExtractState),
    (es.foldl (extractProcessEntry skipGP results extractDir oracle) s).manifest
    = es.foldl (manStep skipGP results extractDir oracle) s.manifest := by
  intro es
  induction es with
  | nil => intro s; rfl
  | cons pe es ih =>
    intro s
    rw [List.foldl_cons, List.foldl_cons, ih]
    rfl

theorem extract_fold_extracted (skipGP : Bool) (results : Results) (extractDir : String)
    (oracle : String → ExtractOutcome) :
    ∀ (es : List (String × ZipEntryInfo)) (s : ExtractState),
    (es.foldl (extractProcessEntry skipGP results extractDir oracle) s).extracted
    = s.extracted
      + (es.filter (fun pe =>
          zipEntryDecision skipGP results extractDir oracle pe.1 pe.2 = "extracted")).length := by
  intro es
  induction es with
  | nil => intro s; simp
  | cons pe es ih =>
    intro s
    rw [List.foldl_cons, ih]
    by_cases hd : zipEntryDecision skipGP results extractDir oracle pe.1 pe.2 = "extracted" <;>
      simp [extractProcessEntry, List.filter_cons, hd] <;> omega

theorem extract_fold_failed (skipGP : Bool) (results : Results) (extractDir : String)
    (oracle : String → ExtractOutcome) :
    ∀ (es : List (String × ZipEntryInfo)) (s : ExtractState),
    (es.foldl (extractProcessEntry skipGP results extractDir oracle) s).failed
    = s.failed
      + (es.filter (fun pe =>
          zipEntryDecision skipGP results extractDir oracle pe.1 pe.2 = "extract_failed")).length := by
  intro es
  induction es with
  | nil => intro s; simp
  | cons pe es ih =>
    intro s
    rw [List.foldl_cons, ih]
    by_cases hd : zipEntryDecision skipGP results extractDir oracle pe.1 pe.2 = "extract_failed" <;>
      simp [extractProcessEntry, List.filter_cons, hd] <;> omega

theorem manifold_skip_head (skipGP : Bool) (results : Results) (extractDir : String)
    (oracle : String → ExtractOutcome) :
    ∀ (es : List (String × ZipEntryInfo)) (m : MEntry) (mr : List MEntry),
    (∀ q ∈ es, ¬ (mKey m = zKey q)) →
    es.foldl (manStep skipGP results extractDir oracle) (m :: mr)
    = m :: es.foldl (manStep skipGP results extractDir oracle) mr := by
  intro es
  induction es with
  | nil => intro m mr _; rfl
  | cons q es ih =>
    intro m mr h
    rw [List.foldl_cons, List.foldl_cons]
    have h1 : manStep skipGP results extractDir oracle (m :: mr) q
        = m :: manStep skipGP results extractDir oracle mr q := by
      unfold manStep
      exact updLast_cons_neg _ _ m mr (decide_eq_false (h q (List.mem_cons_self q es)))
    rw [h1]
    exact ih m _ (fun q' hq' => h q' (List.mem_cons_of_mem q hq'))

theorem manifold_eq (skipGP : Bool) (results : Results) (extractDir : String)
    (oracle : String → ExtractOutcome) :
    ∀ (es : List (String × ZipEntryInfo)) (man : List MEntry),
    man.map mKey = es.map zKey → (es.map zKey).Nodup →
    es.foldl (manStep skipGP results extractDir oracle) man
    = List.zipWith (fun m pe =>
        { m with disposition := zipEntryDecision skipGP results extractDir oracle pe.1 pe.2 })
        man es := by
  intro es
  induction es with
  | nil =>
    intro man hmap _
    simp only [List.map_nil, List.map_eq_nil_iff] at hmap
    rw [hmap]
    rfl
  | cons pe es ih =>
    intro man hmap hnd
    cases man with
    | nil => simp at hmap
    | cons m mr =>
      simp only [List.map_cons] at hmap
      injection hmap with hhead htail
      simp only [List.map_cons, List.nodup_cons] at hnd
      obtain ⟨hnotin, hnd'⟩ := hnd
      rw [List.foldl_cons]
      have hmr_none : ∀ x ∈ mr, decide (mKey x = zKey pe) = false := by
        intro x hx
        apply decide_eq_false
        intro hcontra
        apply hnotin
        rw [← hcontra]
        rw [← htail]
        exact List.mem_map_of_mem mKey hx
      have hstep : manStep skipGP results extractDir oracle (m :: mr) pe
          = { m with disposition := zipEntryDecision skipGP results extractDir oracle pe.1 pe.2 }
            :: mr := by
        unfold manStep
        rw [updLast_cons_none _ _ _ _ hmr_none]
        simp [hhead]
      rw [hstep]
      have hside : ∀ q ∈ es,
          ¬ (mKey ({ m with disposition :=
              zipEntryDecision skipGP results extractDir oracle pe.1 pe.2 } : MEntry)
            = zKey q) := by
        intro q hq hcontra
        apply hnotin
        have hq' : zKey pe = zKey q := by
          rw [← hhead]
          exact hcontra
        rw [hq']
        exact List.mem_map_of_mem zKey hq
      rw [manifold_skip_head skipGP results extractDir oracle es _ mr hside]
      rw [ih mr htail hnd']
      rfl

theorem zipWith_map_self {α β : Type} (f : β → α → β) (h : α → β) :
    ∀ l : List α, List.zipWith f (l.map h) l = l.map (fun x => f (h x) x) := by
  intro l
  induction l with
  | nil => rfl
  | cons x l ih => simp [ih]

/-! ## Key preservation along the pipeline -/

theorem applyOne_mKey (fm : List (String × FileRec)) (f : MEntry) :
    mKey (applyOne fm f) = mKey f := by
  unfold applyOne mKey
  split
  · rfl
  · split <;> rfl

theorem applyOne_path (fm : List (String × FileRec)) (f : MEntry) :
    (applyOne fm f).path = f.path := by
  unfold applyOne
  split
  · rfl
  · split <;> rfl

theorem applyOne_size (fm : List (String × FileRec)) (f : MEntry) :
    (applyOne fm f).size = f.size := by
  unfold applyOne
  split
  · rfl
  · split <;> rfl

theorem buildManifest_map_mKey (zips : List ZipArchive) :
    (buildManifest zips).map mKey = (allEntries zips).map zKey := by
  unfold buildManifest
  rw [List.map_map]
  rfl

theorem applied_map_mKey (zips : List ZipArchive) (results : Results) :
    (applyImmichResults (buildManifest zips) results).map mKey
    = (allEntries zips).map zKey := by
  unfold applyImmichResults
  rw [List.map_map,
    show mKey ∘ applyOne results.files = mKey from funext (applyOne_mKey results.files),
    buildManifest_map_mKey]

/-- The whole zip reconciliation pipeline, assuming the archive keys are
distinct: each manifest entry ends with exactly the disposition its archive
loop iteration of its archive member decided. -/
theorem extract_pipeline (zips : List ZipArchive) (results : Results) (extractDir : String)
    (oracle : String → ExtractOutcome)
    (hnodup : ((allEntries zips).map zKey).Nodup) :
    (extractNonImportedFromZip zips extractDir results
      (applyImmichResults (buildManifest zips) results) true oracle).manifest
    = (allEntries zips).map (fun pe =>
        { applyOne results.files
            { mkZipContent pe.2 with zip_file := pe.1, disposition := "pending" }
          with disposition := zipEntryDecision true results extractDir oracle pe.1 pe.2 }) := by
  unfold extractNonImportedFromZip
  rw [extract_fold_manifest]
  rw [manifold_eq true results extractDir oracle (allEntries zips) _
    (applied_map_mKey zips results) hnodup]
  have happ : applyImmichResults (buildManifest zips) results
      = (allEntries zips).map (fun pe =>
          applyOne results.files
            { mkZipContent pe.2 with zip_file := pe.1, disposition := "pending" }) := by
    unfold applyImmichResults buildManifest
    rw [List.map_map]
    rfl
  rw [happ, zipWith_map_self]

/-! ## Disposition of every archive member, and counting -/

theorem zipDecision_cases (results : Results) (extractDir : String)
    (oracle : String → ExtractOutcome) (zn : String) (info : ZipEntryInfo) :
    zipEntryDecision true results extractDir oracle zn info ∈ dispositionValues := by
  by_cases hj : strEndsWith info.path ".json" = true
  · rw [zipDecision_json results extractDir oracle zn info hj]
    decide
  · simp only [Bool.not_eq_true] at hj
    by_cases hw : wasImported (statusInResults results (baseName info.path)) = true
    · rw [zipDecision_imported results extractDir oracle zn info hw hj]
      decide
    · simp only [Bool.not_eq_true] at hw
      rw [zipDecision_extract results extractDir oracle zn info hw hj]
      cases oracle (extractDir ++ "/" ++ info.path) with
      | written n =>
        by_cases hn : n = info.size <;> simp [hn, dispositionValues]
      | destMissing => simp [dispositionValues]
      | raised => simp [dispositionValues]

theorem sum_map_zero {α : Type} (f : α → Nat) :
    ∀ l : List α, (∀ x ∈ l, f x = 0) → (l.map f).sum = 0 := by
  intro l
  induction l with
  | nil => intro _; rfl
  | cons a l ih =>
    intro h
    simp [h a (List.mem_cons_self a l), ih (fun x hx => h x (List.mem_cons_of_mem a hx))]

theorem sum_map_split {α : Type} (f g : α → Nat) :
    ∀ l : List α, (l.map (fun x => f x + g x)).sum = (l.map f).sum + (l.map g).sum := by
  intro l
  induction l with
  | nil => rfl
  | cons a l ih => simp [ih]; omega

theorem sum_indicator {α : Type} [DecidableEq α] (a : α) :
    ∀ l : List α, l.Nodup → a ∈ l → (l.map (fun d => if a = d then 1 else 0)).sum = 1 := by
  intro l
  induction l with
  | nil => intro _ h; cases h
  | cons d l ih =>
    intro hnd hmem
    simp only [List.nodup_cons] at hnd
    rcases List.mem_cons.mp hmem with heq | hmem'
    · subst heq
      have hz : ((l.map (fun d => if a = d then 1 else 0)).sum) = 0 :=
        sum_map_zero _ l (fun x hx => by
          have : a ≠ x := fun hax => hnd.1 (hax ▸ hx)
          simp [this])
      simp [hz]
    · have hne : a ≠ d := fun had => hnd.1 (had ▸ hmem')
      simp [hne, ih hnd.2 hmem']

theorem dispCount_sum (l : List String) (hnd : l.Nodup) :
    ∀ man : List MEntry, (∀ m ∈ man, m.disposition ∈ l) →
    (l.map (dispCount man)).sum = man.length := by
  intro man
  induction man with
  | nil =>
    intro _
    have : ∀ d ∈ l, dispCount [] d = 0 := by intro d _; rfl
    simp [sum_map_zero (dispCount []) l this]
  | cons m man ih =>
    intro hmem
    have hcnt : ∀ d, dispCount (m :: man) d
        = (if m.disposition = d then 1 else 0) + dispCount man d := by
      intro d
      by_cases h : m.disposition = d
      · simp [dispCount, List.filter_cons, h]
        omega
      · simp [dispCount, List.filter_cons, h]
    have hmap : l.map (dispCount (m :: man))
        = l.map (fun d => (if m.disposition = d then 1 else 0) + dispCount man d) := by
      exact List.map_congr_left (fun d _ => hcnt d)
    rw [hmap, sum_map_split, sum_indicator m.disposition l hnd
      (hmem m (List.mem_cons_self m man)),
      ih (fun x hx => hmem x (List.mem_cons_of_mem m hx))]
    simp [Nat.add_comm]

/-! ## C5 -/

/-- C5: after the immich results are applied to the manifest and zip
reconciliation has run, no manifest entry is left with disposition pending —
every entry carries exactly one of the dispositions the loop assigns — so the
per-disposition counts sum to the file count.  The archive keys
(archive name, member path) are assumed distinct, as they are for distinct
archives with well-formed directories. -/
theorem claim_C5 (zips : List ZipArchive) (results : Results) (extractDir : String)
    (oracle : String → ExtractOutcome)
    (hnodup : ((allEntries zips).map zKey).Nodup) :
    (∀ m ∈ (extractNonImportedFromZip zips extractDir results
        (applyImmichResults (buildManifest zips) results) true oracle).manifest,
      m.disposition ≠ "pending" ∧ m.disposition ∈ dispositionValues)
    ∧ (dispositionValues.map (dispCount
        (extractNonImportedFromZip zips extractDir results
          (applyImmichResults (buildManifest zips) results) true oracle).manifest)).sum
      = (extractNonImportedFromZip zips extractDir results
          (applyImmichResults (buildManifest zips) results) true oracle).manifest.length
    ∧ (extractNonImportedFromZip zips extractDir results
        (applyImmichResults (buildManifest zips) results) true oracle).manifest.length
      = (buildManifest zips).length := by
  have hpipe := extract_pipeline zips results extractDir oracle hnodup
  have hall : ∀ m ∈ (extractNonImportedFromZip zips extractDir results
      (applyImmichResults (buildManifest zips) results) true oracle).manifest,
      m.disposition ≠ "pending" ∧ m.disposition ∈ dispositionValues := by
    rw [hpipe]
    intro m hm
    obtain ⟨pe, hpe, rfl⟩ := List.mem_map.mp hm
    constructor
    · intro hcontra
      have := zipDecision_cases results extractDir oracle pe.1 pe.2
      rw [show ({ applyOne results.files
            { mkZipContent pe.2 with zip_file := pe.1, disposition := "pending" }
          with disposition := zipEntryDecision true results extractDir oracle pe.1 pe.2 }
          : MEntry).disposition
          = zipEntryDecision true results extractDir oracle pe.1 pe.2 from rfl] at hcontra
      rw [hcontra] at this
      simp [dispositionValues] at this
    · exact zipDecision_cases results extractDir oracle pe.1 pe.2
  refine ⟨hall, ?_, ?_⟩
  · exact dispCount_sum dispositionValues (by decide) _ (fun m hm => (hall m hm).2)
  · rw [hpipe]
    unfold buildManifest
    simp

/-- Witness for C5 at a concrete two-member archive: one member imported, one
json sidecar; nothing pending and the counts sum to the file count. -/
theorem claim_C5_witness :
    (∀ m ∈ (extractNonImportedFromZip
        [{ name := "z1.zip",
           entries := [{ path := "Takeout/Google Photos/a.jpg", size := 3 },
                       { path := "Takeout/Google Photos/a.jpg.json", size := 1 }],
           onDisk := true }]
        "/e"
        { summary := emptySummary,
          files := [("a.jpg", { status := some .uploaded, reason := none, albums := [], tags := [] })] }
        (applyImmichResults (buildManifest
          [{ name := "z1.zip",
             entries := [{ path := "Takeout/Google Photos/a.jpg", size := 3 },
                         { path := "Takeout/Google Photos/a.jpg.json", size := 1 }],
             onDisk := true }])
          { summary := emptySummary,
            files := [("a.jpg", { status := some .uploaded, reason := none, albums := [], tags := [] })] })
        true (fun _ => ExtractOutcome.written 3)).manifest,
      m.disposition ≠ "pending")
    ∧ (extractNonImportedFromZip
        [{ name := "z1.zip",
           entries := [{ path := "Takeout/Google Photos/a.jpg", size := 3 },
                       { path := "Takeout/Google Photos/a.jpg.json", size := 1 }],
           onDisk := true }]
        "/e"
        { summary := emptySummary,
          files := [("a.jpg", { status := some .uploaded, reason := none, albums := [], tags := [] })] }
        (applyImmichResults (buildManifest
          [{ name := "z1.zip",
             entries := [{ path := "Takeout/Google Photos/a.jpg", size := 3 },
                         { path := "Takeout/Google Photos/a.jpg.json", size := 1 }],
             onDisk := true }])
          { summary := emptySummary,
            files := [("a.jpg", { status := some .uploaded, reason := none, albums := [], tags := [] })] })
        true (fun _ => ExtractOutcome.written 3)).manifest.length
      = (buildManifest
          [{ name := "z1.zip",
             entries := [{ path := "Takeout/Google Photos/a.jpg", size := 3 },
                         { path := "Takeout/Google Photos/a.jpg.json", size := 1 }],
             onDisk := true }]).length := by
  have h := claim_C5
    [{ name := "z1.zip",
       entries := [{ path := "Takeout/Google Photos/a.jpg", size := 3 },
                   { path := "Takeout/Google Photos/a.jpg.json", size := 1 }],
       onDisk := true }]
    { summary := emptySummary,
      files := [("a.jpg", { status := some .uploaded, reason := none, albums := [], tags := [] })] }
    "/e" (fun _ => ExtractOutcome.written 3) (by decide)
  exact ⟨fun m hm => (h.1 m hm).1, h.2.2⟩

/-! ## C4 -/

/-- C4: byte-exact reconciliation.  The disposition of a member is extracted only
when the write oracle reports the destination holding exactly the source's
byte count; within extraction attempts, success is equivalent to byte
equality; the extracted/failed counters equal the number of members whose
iteration decided extracted/extract_failed; at pipeline level an entry marked
extracted had its own size written; and in the folder loop copied_for_review
requires equal stat sizes while any exception, missing destination or
mismatch yields copy_failed with the failure counter bumped. -/
theorem claim_C4 (zips : List ZipArchive) (results : Results) (extractDir : String)
    (oracle : String → ExtractOutcome) (manifest : List MEntry)
    (foracle : String → CopyOutcome) (f : MEntry) (copyFlag dirSet : Bool) :
    (∀ (zn : String) (info : ZipEntryInfo),
      zipEntryDecision true results extractDir oracle zn info = "extracted" →
      oracle (extractDir ++ "/" ++ info.path) = .written info.size)
    ∧ (∀ (zn : String) (info : ZipEntryInfo),
      (zipEntryDecision true results extractDir oracle zn info = "extracted" ∨
       zipEntryDecision true results extractDir oracle zn info = "extract_failed") →
      (zipEntryDecision true results extractDir oracle zn info = "extracted"
        ↔ oracle (extractDir ++ "/" ++ info.path) = .written info.size))
    ∧ (extractNonImportedFromZip zips extractDir results manifest true oracle).extracted
      = ((allEntries zips).filter (fun pe =>
          zipEntryDecision true results extractDir oracle pe.1 pe.2 = "extracted")).length
    ∧ (extractNonImportedFromZip zips extractDir results manifest true oracle).failed
      = ((allEntries zips).filter (fun pe =>
          zipEntryDecision true results extractDir oracle pe.1 pe.2 = "extract_failed")).length
    ∧ (((allEntries zips).map zKey).Nodup →
      ∀ m ∈ (extractNonImportedFromZip zips extractDir results
          (applyImmichResults (buildManifest zips) results) true oracle).manifest,
        m.disposition = "extracted" →
        oracle (extractDir ++ "/" ++ m.path) = .written m.size)
    ∧ ((copyStepOne results copyFlag dirSet foracle f).1 = "copied_for_review" →
      ∃ n, foracle f.path = .copied n n)
    ∧ ((copyStepOne results copyFlag dirSet foracle f).1 = "copy_failed" →
      copyStepOne results copyFlag dirSet foracle f = ("copy_failed", 0, 1, 1)
      ∧ (foracle f.path = .raised ∨ foracle f.path = .destMissing
        ∨ ∃ dsz ssz, foracle f.path = .copied dsz ssz ∧ dsz ≠ ssz)) := by
  have hA : ∀ (zn : String) (info : ZipEntryInfo),
      zipEntryDecision true results extractDir oracle zn info = "extracted" →
      oracle (extractDir ++ "/" ++ info.path) = .written info.size := by
    intro zn info hd
    obtain ⟨hw, hj⟩ := zipDecision_extract_iff results extractDir oracle zn info (Or.inl hd)
    rw [zipDecision_extract results extractDir oracle zn info hw hj] at hd
    revert hd
    cases ho : oracle (extractDir ++ "/" ++ info.path) with
    | written n =>
      intro hd
      by_cases hn : n = info.size
      · rw [hn]
      · have hd2 : (if n = info.size then "extracted" else "extract_failed")
            = "extracted" := hd
        rw [if_neg hn] at hd2
        exact absurd hd2 (by decide)
    | destMissing =>
      intro hd
      have hd' : "extract_failed" = "extracted" := hd
      exact absurd hd' (by decide)
    | raised =>
      intro hd
      have hd' : "extract_failed" = "extracted" := hd
      exact absurd hd' (by decide)
  refine ⟨hA, ?_, ?_, ?_, ?_, ?_, ?_⟩
  · intro zn info hd
    obtain ⟨hw, hj⟩ := zipDecision_extract_iff results extractDir oracle zn info hd
    constructor
    · exact hA zn info
    · intro ho
      rw [zipDecision_extract results extractDir oracle zn info hw hj, ho]
      simp
  · unfold extractNonImportedFromZip
    rw [extract_fold_extracted]
    simp
  · unfold extractNonImportedFromZip
    rw [extract_fold_failed]
    simp
  · intro hnodup m hm hd
    rw [extract_pipeline zips results extractDir oracle hnodup] at hm
    obtain ⟨pe, hpe, rfl⟩ := List.mem_map.mp hm
    have hpath : ({ applyOne results.files
          { mkZipContent pe.2 with zip_file := pe.1, disposition := "pending" }
        with disposition := zipEntryDecision true results extractDir oracle pe.1 pe.2 }
        : MEntry).path = pe.2.path := by
      show (applyOne results.files
          { mkZipContent pe.2 with zip_file := pe.1, disposition := "pending" }).path = pe.2.path
      rw [applyOne_path]
      rfl
    have hsize : ({ applyOne results.files
          { mkZipContent pe.2 with zip_file := pe.1, disposition := "pending" }
        with disposition := zipEntryDecision true results extractDir oracle pe.1 pe.2 }
        : MEntry).size = pe.2.size := by
      show (applyOne results.files
          { mkZipContent pe.2 with zip_file := pe.1, disposition := "pending" }).size = pe.2.size
      rw [applyOne_size]
      rfl
    rw [hpath, hsize]
    exact hA pe.1 pe.2 hd
  · intro h
    simp only [copyStepOne] at h
    by_cases hw : wasImported (statusInResults results f.filename) = true
    · simp [hw] at h
    · have hw' : wasImported (statusInResults results f.filename) = false := by simpa using hw
      simp only [hw', Bool.false_eq_true, if_false, ite_false] at h
      by_cases hj : strEndsWith f.path ".json" = true
      · simp [hj] at h
      · have hj' : strEndsWith f.path ".json" = false := by simpa using hj
        simp only [hj', Bool.false_eq_true, if_false, ite_false] at h
        by_cases hcd : (copyFlag && dirSet) = true
        · simp only [hcd, if_true, ite_true] at h
          rcases hor : foracle f.path with _ | _ | _ | ⟨dsz, ssz⟩ <;> rw [hor] at h
          · rcases hst : statusInResults results f.filename with _ | s <;> rw [hst] at h
            · simp at h
            · cases s <;> simp [FileStatus.toStr] at h
          · simp at h
          · simp at h
          · by_cases hds : dsz = ssz
            · exact ⟨ssz, by rw [hds]⟩
            · simp [hds] at h
        · have hcd' : (copyFlag && dirSet) = false := by simpa using hcd
          simp only [hcd', Bool.false_eq_true, if_false, ite_false] at h
          rcases hst : statusInResults results f.filename with _ | s <;> rw [hst] at h
          · simp at h
          · cases s <;> simp [FileStatus.toStr] at h
  · intro h
    simp only [copyStepOne] at h
    by_cases hw : wasImported (statusInResults results f.filename) = true
    · simp [hw] at h
    · have hw' : wasImported (statusInResults results f.filename) = false := by simpa using hw
      simp only [hw', Bool.false_eq_true, if_false, ite_false] at h
      by_cases hj : strEndsWith f.path ".json" = true
      · simp [hj] at h
      · have hj' : strEndsWith f.path ".json" = false := by simpa using hj
        simp only [hj', Bool.false_eq_true, if_false, ite_false] at h
        by_cases hcd : (copyFlag && dirSet) = true
        · simp only [hcd, if_true, ite_true] at h
          rcases hor : foracle f.path with _ | _ | _ | ⟨dsz, ssz⟩ <;> rw [hor] at h
          · rcases hst : statusInResults results f.filename with _ | s <;> rw [hst] at h
            · simp at h
            · cases s <;> simp [FileStatus.toStr] at h
          · refine ⟨?_, Or.inl rfl⟩
            simp [copyStepOne, hw', hj', hcd, hor]
          · refine ⟨?_, Or.inr (Or.inl rfl)⟩
            simp [copyStepOne, hw', hj', hcd, hor]
          · by_cases hds : dsz = ssz
            · simp [hds] at h
            · refine ⟨?_, Or.inr (Or.inr ⟨dsz, ssz, rfl, hds⟩)⟩
              simp [copyStepOne, hw', hj', hcd, hor, hds]
        · have hcd' : (copyFlag && dirSet) = false := by simpa using hcd
          simp only [hcd', Bool.false_eq_true, if_false, ite_false] at h
          rcases hst : statusInResults results f.filename with _ | s <;> rw [hst] at h
          · simp at h
          · cases s <;> simp [FileStatus.toStr] at h

/-- Witness for C4 at concrete inputs: an extracted decision forces the
oracle to have reported the exact source size, and a copied_for_review
disposition forces equal stat sizes. -/
theorem claim_C4_witness :
    (fun _ : String => ExtractOutcome.written 7) ("/e" ++ "/" ++ "docs/readme.txt")
      = ExtractOutcome.written 7
    ∧ ∃ n, (fun _ : String => CopyOutcome.copied 4 4) "pics/b.bin" = CopyOutcome.copied n n := by
  constructor
  · exact (claim_C4 [] emptyResults "/e" (fun _ => ExtractOutcome.written 7) []
      (fun _ => CopyOutcome.copied 4 4)
      { path := "pics/b.bin", filename := "b.bin", size := 4, is_media := false,
        is_google_photos := false, is_json := false, zip_file := "",
        disposition := "pending", immich_status := none, immich_reason := none,
        albums := [], tags := [] }
      true true).1 "z1" { path := "docs/readme.txt", size := 7 } rfl
  · exact (claim_C4 [] emptyResults "/e" (fun _ => ExtractOutcome.written 7) []
      (fun _ => CopyOutcome.copied 4 4)
      { path := "pics/b.bin", filename := "b.bin", size := 4, is_media := false,
        is_google_photos := false, is_json := false, zip_file := "",
        disposition := "pending", immich_status := none, immich_reason := none,
        albums := [], tags := [] }
      true true).2.2.2.2.2.1 rfl

/-! ## Decomposition lemmas for contiguous sublists -/

theorem infix_cons_cases {α : Type} {t : List α} {x : α} {l : List α}
    (h : t <:+: x :: l) : t <+: x :: l ∨ t <:+: l := by
  obtain ⟨u, v, huv⟩ := h
  cases u with
  | nil =>
    left
    exact ⟨v, by simpa using huv⟩
  | cons y u' =>
    right
    have huv' : y :: (u' ++ t ++ v) = x :: l := by simpa using huv
    injection huv' with h1 h2
    exact ⟨u', v, h2⟩

theorem pre_append_cases {α : Type} :
    ∀ (a b t : List α), t <+: a ++ b → t <+: a ∨ ∃ t2, t = a ++ t2 ∧ t2 <+: b := by
  intro a
  induction a with
  | nil => intro b t h; exact Or.inr ⟨t, rfl, h⟩
  | cons x a ih =>
    intro b t h
    cases t with
    | nil => exact Or.inl ⟨x :: a, rfl⟩
    | cons y t' =>
      obtain ⟨w, hw⟩ := h
      have hw' : y :: (t' ++ w) = x :: (a ++ b) := by simpa using hw
      injection hw' with h1 h2
      rcases ih b t' ⟨w, h2⟩ with h' | ⟨t2, ht2, hpre2⟩
      · left
        obtain ⟨w2, hw2⟩ := h'
        exact ⟨w2, by rw [h1]; simpa using congrArg (fun l => x :: l) hw2⟩
      · right
        exact ⟨t2, by rw [h1, ht2]; rfl, hpre2⟩

theorem infix_append_cases {α : Type} :
    ∀ (a b t : List α), t <:+: a ++ b →
    t <:+: a ∨ t <:+: b ∨ ∃ t1 t2, t = t1 ++ t2 ∧ t1 ≠ [] ∧ t1 <:+ a ∧ t2 <+: b := by
  intro a
  induction a with
  | nil => intro b t h; exact Or.inr (Or.inl (by simpa using h))
  | cons x a ih =>
    intro b t h
    have h' : t <:+: x :: (a ++ b) := by simpa using h
    rcases infix_cons_cases h' with hp | hi
    · cases t with
      | nil => exact Or.inl ⟨[], x :: a, by simp⟩
      | cons y t' =>
        obtain ⟨w, hw⟩ := hp
        have hw' : y :: (t' ++ w) = x :: (a ++ b) := by simpa using hw
        injection hw' with h1 h2
        rcases pre_append_cases a b t' ⟨w, h2⟩ with hta | ⟨t2, ht2, hpre2⟩
        · obtain ⟨w2, hw2⟩ := hta
          exact Or.inl ⟨[], w2, by rw [h1]; simpa using congrArg (fun l => x :: l) hw2⟩
        · refine Or.inr (Or.inr ⟨x :: a, t2, ?_, by simp, ⟨[], rfl⟩, hpre2⟩)
          rw [h1, ht2]
          rfl
    · rcases ih b t hi with hta | htb | ⟨t1, t2, ht, ht1ne, ht1sfx, ht2pre⟩
      · obtain ⟨u, v, huv⟩ := hta
        exact Or.inl ⟨x :: u, v, by rw [← huv]; rfl⟩
      · exact Or.inr (Or.inl htb)
      · obtain ⟨u, hu⟩ := ht1sfx
        exact Or.inr (Or.inr ⟨t1, t2, ht, ht1ne, ⟨x :: u, by rw [← hu]; rfl⟩, ht2pre⟩)

/-! ## The masking loop never leaves or recreates a star-free key -/

theorem maskStr_toList :
    maskStr.toList
    = ['*', '*', '*', 'A', 'P', 'I', '_', 'K', 'E', 'Y', '*', '*', '*'] := by decide

theorem replGo_keep (p : Char) (ps : List Char) (hstar : '*' ∉ p :: ps) :
    ∀ (fuel : Nat) (s : List Char), s.length ≤ fuel →
    ∀ t : List Char, t <:+ (p :: ps) → t <+: replGo p ps maskStr.toList fuel s →
    t <+: s := by
  intro fuel
  induction fuel with
  | zero =>
    intro s hlen t _ htp
    have hs : s = [] := List.length_eq_zero.mp (Nat.le_zero.mp hlen)
    subst hs
    exact htp
  | succ fuel ih =>
    intro s hlen t hts htp
    cases s with
    | nil => exact htp
    | cons c rest =>
      by_cases hpre : (p :: ps) <+: (c :: rest)
      · have hstep : replGo p ps maskStr.toList (fuel + 1) (c :: rest)
            = maskStr.toList ++ replGo p ps maskStr.toList fuel (rest.drop ps.length) := by
          simp [replGo, hpre]
        rw [hstep] at htp
        cases t with
        | nil => exact ⟨c :: rest, rfl⟩
        | cons x t' =>
          obtain ⟨w, hw⟩ := htp
          rw [maskStr_toList] at hw
          have hw' : x :: (t' ++ w)
              = '*' :: (['*', '*', 'A', 'P', 'I', '_', 'K', 'E', 'Y', '*', '*', '*']
                ++ replGo p ps maskStr.toList fuel (rest.drop ps.length)) := by
            simpa using hw
          injection hw' with h1 _
          obtain ⟨u, hu⟩ := hts
          refine absurd ?_ hstar
          rw [← hu, h1]
          exact List.mem_append_right u (List.mem_cons_self _ _)
      · have hstep : replGo p ps maskStr.toList (fuel + 1) (c :: rest)
            = c :: replGo p ps maskStr.toList fuel rest := by
          simp [replGo, hpre]
        rw [hstep] at htp
        cases t with
        | nil => exact ⟨c :: rest, rfl⟩
        | cons x t' =>
          obtain ⟨w, hw⟩ := htp
          have hw' : x :: (t' ++ w) = c :: replGo p ps maskStr.toList fuel rest := by
            simpa using hw
          injection hw' with h1 h2
          have hts' : t' <:+ (p :: ps) := by
            obtain ⟨u, hu⟩ := hts
            exact ⟨u ++ [x], by rw [List.append_assoc]; simpa using hu⟩
          have hlen' : rest.length ≤ fuel := by
            simpa using Nat.le_of_succ_le_succ (by simpa using hlen)
          obtain ⟨w2, hw2⟩ := ih rest hlen' t' hts' ⟨w, h2⟩
          exact ⟨w2, by rw [h1]; simpa using congrArg (fun l => c :: l) hw2⟩

theorem replGo_no_occ (p : Char) (ps : List Char) (hstar : '*' ∉ p :: ps)
    (hmask : ¬ (p :: ps) <:+: maskStr.toList) :
    ∀ (fuel : Nat) (s : List Char), s.length ≤ fuel →
    ¬ (p :: ps) <:+: replGo p ps maskStr.toList fuel s := by
  intro fuel
  induction fuel with
  | zero =>
    intro s hlen hocc
    have hs : s = [] := List.length_eq_zero.mp (Nat.le_zero.mp hlen)
    subst hs
    obtain ⟨u, v, huv⟩ := hocc
    simp [replGo] at huv
  | succ fuel ih =>
    intro s hlen hocc
    cases s with
    | nil =>
      obtain ⟨u, v, huv⟩ := hocc
      simp [replGo] at huv
    | cons c rest =>
      by_cases hpre : (p :: ps) <+: (c :: rest)
      · have hstep : replGo p ps maskStr.toList (fuel + 1) (c :: rest)
            = maskStr.toList ++ replGo p ps maskStr.toList fuel (rest.drop ps.length) := by
          simp [replGo, hpre]
        rw [hstep] at hocc
        rcases infix_append_cases maskStr.toList _ _ hocc with hm | hR | ⟨t1, t2, ht, ht1ne, ht1sfx, _⟩
        · exact hmask hm
        · have hlen' : (rest.drop ps.length).length ≤ fuel := by
            have h1 : rest.length ≤ fuel := by
              simpa using Nat.le_of_succ_le_succ (by simpa using hlen)
            have h2 : (rest.drop ps.length).length ≤ rest.length := by
              simp [List.length_drop]
            omega
          exact ih (rest.drop ps.length) hlen' hR
        · obtain ⟨u, hu⟩ := ht1sfx
          cases ht1r : t1.reverse with
          | nil =>
            exact ht1ne (by simpa using congrArg List.reverse ht1r)
          | cons y t1r =>
            have hyt : y = '*' := by
              have hrev : t1.reverse ++ u.reverse = maskStr.toList.reverse := by
                rw [← List.reverse_append, hu]
              rw [ht1r, maskStr_toList] at hrev
              simpa using congrArg (fun l => l.head?) hrev
            refine absurd ?_ hstar
            have hy_mem : y ∈ t1 := by
              rw [← List.mem_reverse, ht1r]
              exact List.mem_cons_self y t1r
            rw [← hyt]
            rw [ht]
            exact List.mem_append_left t2 hy_mem
      · have hstep : replGo p ps maskStr.toList (fuel + 1) (c :: rest)
            = c :: replGo p ps maskStr.toList fuel rest := by
          simp [replGo, hpre]
        rw [hstep] at hocc
        have hlen' : rest.length ≤ fuel := by
          simpa using Nat.le_of_succ_le_succ (by simpa using hlen)
        rcases infix_cons_cases hocc with hp | hi
        · obtain ⟨w, hw⟩ := hp
          have hw' : p :: (ps ++ w) = c :: replGo p ps maskStr.toList fuel rest := by
            simpa using hw
          injection hw' with h1 h2
          have hpsfx : ps <:+ (p :: ps) := ⟨[p], rfl⟩
          obtain ⟨w2, hw2⟩ := replGo_keep p ps hstar fuel rest hlen' ps hpsfx ⟨w, h2⟩
          exact hpre ⟨w2, by rw [h1]; simpa using congrArg (fun l => c :: l) hw2⟩
        · exact ih rest hlen' hi

/-! ## C8 -/

/-- C8 counterexample: with the key configured as the string API_KEY — a
substring of the mask — the replacement reintroduces the key: the persisted
command display still contains it. -/
theorem claim_C8_cex :
    maskApiKey "API_KEY" ["-k", "API_KEY"] = "-k ***API_KEY***"
    ∧ "API_KEY".toList <:+: ("-k ***API_KEY***").toList := by
  refine ⟨by decide, ?_⟩
  exact ⟨"-k ***".toList, "***".toList, by decide⟩

/-- C8 amended: for every command and every configured key that is nonempty,
contains no asterisk, and is not a substring of the mask, the persisted
command display contains no occurrence of the key — every occurrence in the
joined command line was replaced by the mask.  Degenerate keys such as
API_KEY itself escape the guarantee, as the counterexample shows. -/
theorem claim_C8 (apiKey : String) (cmd : List String)
    (h1 : apiKey.toList ≠ []) (h2 : '*' ∉ apiKey.toList)
    (h3 : ¬ apiKey.toList <:+: maskStr.toList) :
    ¬ apiKey.toList <:+: (maskApiKey apiKey cmd).toList := by
  unfold maskApiKey pyReplace
  cases hk : apiKey.toList with
  | nil => exact absurd hk h1
  | cons p ps =>
    rw [hk] at h2 h3
    exact replGo_no_occ p ps h2 h3 _ _ (Nat.le_refl _)

/-- Witness for C8 at a realistic key and command line. -/
theorem claim_C8_witness :
    ¬ "secretkey123".toList <:+:
      (maskApiKey "secretkey123" ["immich-go", "upload", "-k", "secretkey123"]).toList := by
  exact claim_C8 "secretkey123" ["immich-go", "upload", "-k", "secretkey123"]
    (by decide) (by decide) (by decide)

end ImmichTakeout
